import Mathlib

/-!
Verification development for the Project-Classifier repository
(src/main3.0.py and src/main2.2.py).

Strings are embedded as `List Char`, numeric sizes and similarity scores as
`ℚ` (Python floats idealized as exact rationals), and the filesystem as an
explicit snapshot value.  Loops are embedded as structurally recursive
functions; where the Python loop is bounded by an index distance, the Lean
function takes that distance as an explicit fuel argument so that all
definitions reduce in the kernel.

The similarity function used by both engines is
`difflib.SequenceMatcher(None, a, b).ratio()` from the CPython standard
library (isjunk = None), so the relevant parts of difflib are embedded here:
`__chain_b`'s autojunk purge (`popularChar`), `find_longest_match`
(candidate search plus the four extension while-loops), the recursive block
decomposition of `get_matching_blocks` (of which `ratio` consumes only the
total matched size, which the final sort/coalesce steps preserve), and
`_calculate_ratio`.
-/

set_option maxRecDepth 100000

/-- Character of `s` at index `i` (call sites keep indices in range;
the default is never reached from `similarity`). -/
def charAt (s : List Char) (i : Nat) : Char := s.getD i (Char.ofNat 0)

/-- difflib `__chain_b` autojunk purge with `isjunk = None`: an element of
`b` is "popular" (deleted from `b2j`) iff `len(b) >= 200` and it occurs more
than `len(b) // 100 + 1` times in `b`. -/
def popularChar (b : List Char) (c : Char) : Bool :=
  decide (200 ≤ b.length) && decide (b.length / 100 + 1 < b.count c)

/-- With `isjunk = None` the junk set `bjunk` is empty. -/
def noJunk : Char → Bool := fun _ => false

/-- Length of the matching run of `a` and `b` starting at `(i, j)` inside the
window `[·, ahi) × [·, bhi)` and using only non-popular elements of `b`
(popular elements were deleted from `b2j`, so `find_longest_match`'s inner
loop chains only through non-popular positions).  Fuel is `ahi - i`. -/
def matchLenAux (a b : List Char) (pop : Char → Bool) (ahi bhi : Nat) :
    Nat → Nat → Nat → Nat
  | 0, _, _ => 0
  | fuel + 1, i, j =>
    if i < ahi ∧ j < bhi ∧ charAt a i = charAt b j ∧ pop (charAt b j) = false then
      1 + matchLenAux a b pop ahi bhi fuel (i + 1) (j + 1)
    else 0

def matchLen (a b : List Char) (pop : Char → Bool) (ahi bhi i j : Nat) : Nat :=
  matchLenAux a b pop ahi bhi (ahi - i) i j

/-- A valid junk-free run of length `k` from `(i, j)`: the windows agree and
the `b` side uses only non-popular characters. -/
def okRun (a b : List Char) (pop : Char → Bool) (ahi bhi i j k : Nat) : Prop :=
  ∀ t, t < k →
    i + t < ahi ∧ j + t < bhi ∧ charAt a (i + t) = charAt b (j + t) ∧
      pop (charAt b (j + t)) = false

/-- Inner loop of `find_longest_match`: scan the `j` positions of row `i`
in ascending order, recording `(i, j, k)` on strict improvement (difflib
updates `besti, bestj, bestsize` only when `k > bestsize`, so of all maximal
blocks the one starting earliest in `a`, then earliest in `b`, wins — this is
the contract stated in `find_longest_match`'s docstring).  Fuel is the number
of remaining columns. -/
def bestRowAux (a b : List Char) (pop : Char → Bool) (ahi bhi i : Nat) :
    Nat → Nat → Nat × Nat × Nat → Nat × Nat × Nat
  | 0, _, cur => cur
  | fuel + 1, j, cur =>
    let k := matchLen a b pop ahi bhi i j
    bestRowAux a b pop ahi bhi i fuel (j + 1) (if cur.2.2 < k then (i, j, k) else cur)

/-- Outer loop of `find_longest_match`'s candidate search over rows
`i = alo, …, ahi-1`. -/
def bestAllAux (a b : List Char) (pop : Char → Bool) (ahi bhi blo : Nat) :
    Nat → Nat → Nat × Nat × Nat → Nat × Nat × Nat
  | 0, _, cur => cur
  | fuel + 1, i, cur =>
    bestAllAux a b pop ahi bhi blo fuel (i + 1)
      (bestRowAux a b pop ahi bhi i (bhi - blo) blo cur)

/-- The best junk-free block of `find_longest_match` before the extension
loops, starting from `besti, bestj, bestsize = alo, blo, 0`. -/
def dpBest (a b : List Char) (pop : Char → Bool) (alo ahi blo bhi : Nat) :
    Nat × Nat × Nat :=
  bestAllAux a b pop ahi bhi blo (ahi - alo) alo (alo, blo, 0)

/-- One of the two backward extension while-loops of `find_longest_match`
(`ok` is `not isbjunk` for the first loop and `isbjunk` for the third). -/
def extendBackAux (a b : List Char) (ok : Char → Bool) (alo blo : Nat) :
    Nat → Nat × Nat × Nat → Nat × Nat × Nat
  | 0, s => s
  | fuel + 1, (bi, bj, bk) =>
    if alo < bi ∧ blo < bj ∧ ok (charAt b (bj - 1)) = true ∧
        charAt a (bi - 1) = charAt b (bj - 1) then
      extendBackAux a b ok alo blo fuel (bi - 1, bj - 1, bk + 1)
    else (bi, bj, bk)

def extendBack (a b : List Char) (ok : Char → Bool) (alo blo : Nat)
    (s : Nat × Nat × Nat) : Nat × Nat × Nat :=
  extendBackAux a b ok alo blo s.1 s

/-- One of the two forward extension while-loops of `find_longest_match`. -/
def extendFwdAux (a b : List Char) (ok : Char → Bool) (ahi bhi : Nat) :
    Nat → Nat × Nat × Nat → Nat × Nat × Nat
  | 0, s => s
  | fuel + 1, (bi, bj, bk) =>
    if bi + bk < ahi ∧ bj + bk < bhi ∧ ok (charAt b (bj + bk)) = true ∧
        charAt a (bi + bk) = charAt b (bj + bk) then
      extendFwdAux a b ok ahi bhi fuel (bi, bj, bk + 1)
    else (bi, bj, bk)

def extendFwd (a b : List Char) (ok : Char → Bool) (ahi bhi : Nat)
    (s : Nat × Nat × Nat) : Nat × Nat × Nat :=
  extendFwdAux a b ok ahi bhi (ahi - (s.1 + s.2.2)) s

/-- difflib `SequenceMatcher.find_longest_match` on the window
`a[alo:ahi]`, `b[blo:bhi]`: best junk-free block, extended first by matching
non-junk elements on each side, then by matching junk elements. -/
def findLongestMatch (a b : List Char) (pop junk : Char → Bool)
    (alo ahi blo bhi : Nat) : Nat × Nat × Nat :=
  let s0 := dpBest a b pop alo ahi blo bhi
  let s1 := extendBack a b (fun c => !junk c) alo blo s0
  let s2 := extendFwd a b (fun c => !junk c) ahi bhi s1
  let s3 := extendBack a b junk alo blo s2
  extendFwd a b junk ahi bhi s3

/-- Total size of the matching blocks produced by `get_matching_blocks`'
recursive decomposition (the queue in the source is the unfolding of this
recursion; the final sorting and coalescing of adjacent blocks permute and
merge blocks without changing the total size, which is all `ratio` reads).
Fuel is the sum of the window lengths, which strictly decreases. -/
def matchesSumAux (a b : List Char) (pop junk : Char → Bool) :
    Nat → Nat → Nat → Nat → Nat → Nat
  | 0, _, _, _, _ => 0
  | fuel + 1, alo, ahi, blo, bhi =>
    let r := findLongestMatch a b pop junk alo ahi blo bhi
    if r.2.2 = 0 then 0
    else
      r.2.2 +
        (if alo < r.1 ∧ blo < r.2.1 then
          matchesSumAux a b pop junk fuel alo r.1 blo r.2.1
        else 0) +
        (if r.1 + r.2.2 < ahi ∧ r.2.1 + r.2.2 < bhi then
          matchesSumAux a b pop junk fuel (r.1 + r.2.2) ahi (r.2.1 + r.2.2) bhi
        else 0)

def matchesSum (a b : List Char) (pop junk : Char → Bool)
    (alo ahi blo bhi : Nat) : Nat :=
  matchesSumAux a b pop junk ((ahi - alo) + (bhi - blo)) alo ahi blo bhi

/-- `SequenceMatcher(None, a, b).ratio()`: `_calculate_ratio(matches, T)`
with `T = len(a) + len(b)`, i.e. `2*M/T`, and `1.0` when `T = 0`. -/
def similarity (a b : List Char) : ℚ :=
  if a.length + b.length = 0 then 1
  else
    2 * (matchesSum a b (popularChar b) noJunk 0 a.length 0 b.length : ℚ) /
      ((a.length : ℚ) + (b.length : ℚ))

/-- Total matched length of the alignment described by the spec's §4.2:
find the longest common contiguous substring of the two windows (taking, of
all maximal common substrings, the occurrence earliest in `a` and then
earliest in `b`), recursively apply the same procedure to the unmatched
prefix segments and to the unmatched suffix segments, and sum the matched
lengths.  This is the spec-side definition for the refinement claim C1; it
uses no autojunk purge and no extension loops. -/
def specAlignSumAux (a b : List Char) : Nat → Nat → Nat → Nat → Nat → Nat
  | 0, _, _, _, _ => 0
  | fuel + 1, alo, ahi, blo, bhi =>
    let r := dpBest a b noJunk alo ahi blo bhi
    if r.2.2 = 0 then 0
    else
      r.2.2 + specAlignSumAux a b fuel alo r.1 blo r.2.1 +
        specAlignSumAux a b fuel (r.1 + r.2.2) ahi (r.2.1 + r.2.2) bhi

def specAlignSum (a b : List Char) (alo ahi blo bhi : Nat) : Nat :=
  specAlignSumAux a b ((ahi - alo) + (bhi - blo)) alo ahi blo bhi

/-! ## RangeValidator: `RangeConfigurator.get_ranges` (identical in
src/main3.0.py lines 53-85 and src/main2.2.py lines 53-85) -/

/-- One `(min_var, max_var, dir_var)` entry of `self.entries`. -/
structure RangeTriple where
  minVal : List Char
  maxVal : List Char
  dirName : List Char
deriving DecidableEq

/-- Codepoint ranges (inclusive) of the characters with Unicode property
`Numeric_Type = Decimal` (general category `Nd`), from the Unicode character
database CPython 3.11 uses: exactly the characters `int(...)` accepts as
digits.  Within each range the decimal value of a character is
`(codepoint - lo) % 10`; the one range of length 50 (the mathematical
alphanumeric digits) is five consecutive decades each starting at value 0,
every other range is a single decade. -/
def decimalDigitRanges : List (Nat × Nat) :=
  [(48, 57), (1632, 1641), (1776, 1785), (1984, 1993), (2406, 2415), (2534, 2543), (2662, 2671),
   (2790, 2799), (2918, 2927), (3046, 3055), (3174, 3183), (3302, 3311), (3430, 3439),
   (3558, 3567), (3664, 3673), (3792, 3801), (3872, 3881), (4160, 4169), (4240, 4249),
   (6112, 6121), (6160, 6169), (6470, 6479), (6608, 6617), (6784, 6793), (6800, 6809),
   (6992, 7001), (7088, 7097), (7232, 7241), (7248, 7257), (42528, 42537), (43216, 43225),
   (43264, 43273), (43472, 43481), (43504, 43513), (43600, 43609), (44016, 44025),
   (65296, 65305), (66720, 66729), (68912, 68921), (69734, 69743), (69872, 69881),
   (69942, 69951), (70096, 70105), (70384, 70393), (70736, 70745), (70864, 70873),
   (71248, 71257), (71360, 71369), (71472, 71481), (71904, 71913), (72016, 72025),
   (72784, 72793), (73040, 73049), (73120, 73129), (92768, 92777), (92864, 92873),
   (93008, 93017), (120782, 120831), (123200, 123209), (123632, 123641), (125264, 125273),
   (130032, 130041)]

/-- Codepoint ranges (inclusive) of the characters with Unicode property
`Numeric_Type = Digit` that are not decimal (superscripts such as `'²'`,
subscripts, circled digits, ...), from the same Unicode character database:
`str.isdigit()` accepts them but `int(...)` raises `ValueError` on them. -/
def digitOnlyRanges : List (Nat × Nat) :=
  [(178, 179), (185, 185), (4969, 4977), (6618, 6618), (8304, 8304), (8308, 8313), (8320, 8329),
   (9312, 9320), (9332, 9340), (9352, 9360), (9450, 9450), (9461, 9469), (9471, 9471),
   (10102, 10110), (10112, 10120), (10122, 10130), (68160, 68163), (69216, 69224),
   (69714, 69722), (127232, 127242)]

/-- Whether the codepoint of `c` lies in one of the given ranges. -/
def inCodeRanges (rs : List (Nat × Nat)) (c : Char) : Bool :=
  rs.any fun r => decide (r.1 ≤ c.toNat) && decide (c.toNat ≤ r.2)

/-- A decimal-digit character (`int(...)` accepts it). -/
def pyIsDecimal (c : Char) : Bool := inCodeRanges decimalDigitRanges c

/-- A character `str.isdigit()` accepts: decimal, or digit-only. -/
def pyIsDigitChar (c : Char) : Bool :=
  pyIsDecimal c || inCodeRanges digitOnlyRanges c

/-- Python `str.isdigit()`: non-empty and every character has the Unicode
digit property. -/
def isdigitStr (s : List Char) : Bool :=
  !s.isEmpty && s.all pyIsDigitChar

/-- Whether `int(s)` succeeds on a string that passed `isdigit`: every
character must be a decimal digit — `'²'.isdigit()` holds but `int('²')`
raises `ValueError`.  (CPython 3.11 additionally caps string-to-int
conversion at `sys.int_info.default_max_str_digits` characters; that
globally configurable interpreter resource limit is out of scope here, like
recursion and memory limits.) -/
def intParses (s : List Char) : Bool := s.all pyIsDecimal

/-- Decimal value of a digit character, per the Unicode character
database. -/
def pyDigitVal (c : Char) : Nat :=
  match decimalDigitRanges.find?
      (fun r => decide (r.1 ≤ c.toNat) && decide (c.toNat ≤ r.2)) with
  | some r => (c.toNat - r.1) % 10
  | none => 0

/-- Integer value of a decimal-digit string, as `int(...)` parses it. -/
def natOfDigits (s : List Char) : Nat :=
  s.foldl (fun n c => n * 10 + pyDigitVal c) 0

/-- The literal token `"inf"`. -/
def infLit : List Char := ['i', 'n', 'f']

/-- Upper bound of a range: `int(max_val)` or `float("inf")`. -/
inductive UpperB where
  | inf : UpperB
  | fin : ℚ → UpperB
deriving DecidableEq

/-- Python `min_num >= max_num` (with `max_num` possibly `float("inf")`,
which no number is `>=`). -/
def geUpper (m : ℚ) : UpperB → Bool
  | .inf => false
  | .fin x => decide (x ≤ m)

/-- Python `size < max_size` for the bucket test. -/
def ltUpper (s : ℚ) : UpperB → Bool
  | .inf => true
  | .fin x => decide (s < x)

/-- A validated range `(min_num, max_num, dir_name)`. -/
structure SizeRange where
  rmin : ℚ
  rmax : UpperB
  label : List Char
deriving DecidableEq

/-- Error values appended to `errors`, one constructor per message template
(each carries the data interpolated into the f-string). -/
inductive RangeErrData where
  | minNotDigit (minVal : List Char)
  | maxNotDigit (maxVal : List Char)
  | emptyDirName
  | badOrder (minNum : ℚ) (maxNum : UpperB)
deriving DecidableEq

/-- Result of a call to `get_ranges`: the returned `(ranges, errors)` pair,
or an uncaught `ValueError` raised by `int(...)` (carrying the offending
literal), which aborts the call and discards everything collected so far. -/
inductive RangesResult where
  | ok (ranges : List SizeRange) (errors : List RangeErrData)
  | raised (text : List Char)
deriving DecidableEq

/-- Prepend an error to the `errors` list of a non-raised result (the loop
appends front-to-back; a later iteration's raise discards the whole run). -/
def consErr (err : RangeErrData) : RangesResult → RangesResult
  | .ok rs es => .ok rs (err :: es)
  | .raised t => .raised t

/-- Prepend a range to the `ranges` list of a non-raised result. -/
def consRange (r : SizeRange) : RangesResult → RangesResult
  | .ok rs es => .ok (r :: rs) es
  | .raised t => .raised t

/-- `RangeConfigurator.get_ranges`: walk the entries, appending to `ranges`
on success and to `errors` at the first failed check (`continue`).  After
the three checks pass, `min_num = int(min_val)` runs, then — when
`max_val != "inf"` — `max_num = int(max_val)`; each argument passed
`isdigit`, but on a digit-only character such as `'²'` the conversion
raises an uncaught `ValueError` that propagates out of the loop, so the
call returns nothing and the lists built so far are lost. -/
def get_ranges : List RangeTriple → RangesResult
  | [] => .ok [] []
  | e :: rest =>
    if isdigitStr e.minVal = false then
      consErr (.minNotDigit e.minVal) (get_ranges rest)
    else if e.maxVal ≠ infLit ∧ isdigitStr e.maxVal = false then
      consErr (.maxNotDigit e.maxVal) (get_ranges rest)
    else if e.dirName = [] then consErr .emptyDirName (get_ranges rest)
    else if intParses e.minVal = false then .raised e.minVal
    else if e.maxVal ≠ infLit ∧ intParses e.maxVal = false then
      .raised e.maxVal
    else
      let minNum : ℚ := (natOfDigits e.minVal : ℚ)
      let maxNum : UpperB :=
        if e.maxVal = infLit then .inf else .fin (natOfDigits e.maxVal : ℚ)
      if geUpper minNum maxNum then
        consErr (.badOrder minNum maxNum) (get_ranges rest)
      else consRange ⟨minNum, maxNum, e.dirName⟩ (get_ranges rest)

/-- A triple on which the `int(...)` conversions cannot raise: any of its
numeric texts that passes `isdigit` consists of decimal digits only. -/
def tripleSafe (e : RangeTriple) : Bool :=
  (!isdigitStr e.minVal || intParses e.minVal) &&
  (!isdigitStr e.maxVal || intParses e.maxVal)

/-- Claim-side characterization: the range a triple yields when it passes
every check. -/
def validRange (e : RangeTriple) : Option SizeRange :=
  if isdigitStr e.minVal = false then none
  else if e.maxVal ≠ infLit ∧ isdigitStr e.maxVal = false then none
  else if e.dirName = [] then none
  else
    let minNum : ℚ := (natOfDigits e.minVal : ℚ)
    let maxNum : UpperB :=
      if e.maxVal = infLit then .inf else .fin (natOfDigits e.maxVal : ℚ)
    if geUpper minNum maxNum then none else some ⟨minNum, maxNum, e.dirName⟩

/-- Claim-side characterization: the error of the first check a triple
violates, if any. -/
def tripleErr (e : RangeTriple) : Option RangeErrData :=
  if isdigitStr e.minVal = false then some (.minNotDigit e.minVal)
  else if e.maxVal ≠ infLit ∧ isdigitStr e.maxVal = false then
    some (.maxNotDigit e.maxVal)
  else if e.dirName = [] then some .emptyDirName
  else
    let minNum : ℚ := (natOfDigits e.minVal : ℚ)
    let maxNum : UpperB :=
      if e.maxVal = infLit then .inf else .fin (natOfDigits e.maxVal : ℚ)
    if geUpper minNum maxNum then some (.badOrder minNum maxNum) else none

/-! ## Bucketizer: `_get_target_dir` in both engines -/

/-- Python `min_size <= project_size < max_size`. -/
def inRange (r : SizeRange) (s : ℚ) : Bool :=
  decide (r.rmin ≤ s) && ltUpper s r.rmax

/-- `FileClassifier._get_target_dir`: label of the first matching range
(the classify engine joins it to `base_dir`; the path prefix is cosmetic and
dropped here), `None` when no range matches. -/
def get_target_dir (ranges : List SizeRange) (s : ℚ) : Option (List Char) :=
  match ranges with
  | [] => none
  | r :: rest => if inRange r s then some r.label else get_target_dir rest s

/-- The sentinel label `"未分类"` of the report engine. -/
def unclassifiedLabel : List Char := ['未', '分', '类']

/-- `ReportGenerator._get_target_dir`: like the classify version but
returning the sentinel when no range matches. -/
def get_target_dir_report (ranges : List SizeRange) (s : ℚ) : List Char :=
  match ranges with
  | [] => unclassifiedLabel
  | r :: rest => if inRange r s then r.label else get_target_dir_report rest s

/-! ## ClassifyEngine: `FileClassifier` -/

/-- Immediate child of the base directory: its name, whether it is a
directory, and (for directories) the names it contains — enough filesystem
state to express `os.listdir`, `os.makedirs` and `shutil.move`. -/
structure FsEntry where
  name : List Char
  isDir : Bool
  contents : List (List Char)
deriving DecidableEq

/-- One spreadsheet row after `FileClassifier.run`'s parsing: `str(row[0])`
and `float(row[1])` (`none` when the float conversion raised and the row is
skipped by `continue`). -/
structure RecordRow where
  rname : List Char
  rsize : Option ℚ
deriving DecidableEq

/-- `FileClassifier._find_project_folder`: first entry of `os.listdir` that
is a directory with `SequenceMatcher(None, project_name, folder).ratio() >
0.8` (the function returns the joined path; the base prefix is cosmetic and
dropped here). -/
def find_project_folder (fs : List FsEntry) (projectName : List Char) :
    Option (List Char) :=
  match fs with
  | [] => none
  | e :: rest =>
    if e.isDir = true ∧ (4 : ℚ) / 5 < similarity projectName e.name then
      some e.name
    else find_project_folder rest projectName

/-- Contents of the entry named `target` (empty when absent). -/
def contentsOf (fs : List FsEntry) (target : List Char) : List (List Char) :=
  match fs.find? fun e => e.name = target with
  | some e => e.contents
  | none => []

/-- `os.makedirs(target_dir, exist_ok=True)`: create the directory unless a
like-named entry already exists. -/
def makedirs (fs : List FsEntry) (target : List Char) : List FsEntry :=
  if fs.any fun e => e.name = target then fs else fs ++ [⟨target, true, []⟩]

/-- Failure raised by `shutil.move` when the destination already contains an
entry with the moved folder's name. -/
inductive MoveErr where
  | destExists (folder target : List Char)
deriving DecidableEq

def removeTop (fs : List FsEntry) (folder : List Char) : List FsEntry :=
  fs.filter fun e => decide (e.name ≠ folder)

def addContent (fs : List FsEntry) (target folder : List Char) : List FsEntry :=
  fs.map fun e =>
    if e.name = target then ⟨e.name, e.isDir, e.contents ++ [folder]⟩ else e

/-- `shutil.move(folder_path, target_dir)`: refuse if the destination
already holds the name, otherwise drop the folder from the top level and
record it inside the target. -/
def moveInto (fs : List FsEntry) (folder target : List Char) :
    List FsEntry × Option MoveErr :=
  if folder ∈ contentsOf fs target then (fs, some (.destExists folder target))
  else (addContent (removeTop fs folder) target folder, none)

/-- Body of `FileClassifier.run`'s loop for one record: skip unparseable
sizes, look up the first over-threshold folder, look up the bucket, then
`os.makedirs` + `shutil.move`.  Returns the filesystem after the step and
the error of a failed move, if any (`os.makedirs` has already run then). -/
def classifyStep (ranges : List SizeRange) (fs : List FsEntry)
    (r : RecordRow) : List FsEntry × Option MoveErr :=
  match r.rsize with
  | none => (fs, none)
  | some s =>
    match find_project_folder fs r.rname with
    | none => (fs, none)
    | some folder =>
      match get_target_dir ranges s with
      | none => (fs, none)
      | some target => moveInto (makedirs fs target) folder target

/-- `FileClassifier.run`: fold `classifyStep` over the spreadsheet rows; an
uncaught move error stops the loop, leaving the state reached so far. -/
def classifyRun (ranges : List SizeRange) (fs : List FsEntry) :
    List RecordRow → List FsEntry × Option MoveErr
  | [] => (fs, none)
  | r :: rest =>
    match classifyStep ranges fs r with
    | (fs1, none) => classifyRun ranges fs1 rest
    | (fs1, some e) => (fs1, some e)

/-! ## ReportEngine: `ReportGenerator` -/

/-- One record of `_read_excel_data`: `name` and `size` (`none` when the
float conversion failed; such records are kept but skipped in matching). -/
structure Project where
  pname : List Char
  psize : Option ℚ
deriving DecidableEq

/-- Entry one level inside a bucket directory. -/
structure SubEntry where
  sname : List Char
  sIsDir : Bool
deriving DecidableEq

/-- Top-level entry of the base directory as the report engine sees it. -/
structure TopEntry where
  tname : List Char
  tIsDir : Bool
  subs : List SubEntry
deriving DecidableEq

/-- A row of the report (`实际位置` = actual location, etc.). -/
structure ReportRow where
  folderName : List Char
  matchedName : List Char
  score : ℚ
  projSize : Option ℚ
  targetDir : List Char
  actualLoc : List Char
deriving DecidableEq

/-- Accumulating loop of `ReportGenerator._find_best_match`: running
`(best_match, max_similarity)` over the projects, skipping `size is None`,
updating on strict improvement `similarity > max_similarity`. -/
def fbmAux (folderName : List Char) (best : Option Project) (maxSim : ℚ) :
    List Project → Option Project × ℚ
  | [] => (best, maxSim)
  | p :: rest =>
    match p.psize with
    | none => fbmAux folderName best maxSim rest
    | some _ =>
      let sim := similarity folderName p.pname
      if maxSim < sim then fbmAux folderName (some p) sim rest
      else fbmAux folderName best maxSim rest

/-- `ReportGenerator._find_best_match(folder_name, projects)`. -/
def find_best_match (folderName : List Char) (projects : List Project) :
    Option Project × ℚ :=
  fbmAux folderName none 0 projects

/-- Report row constructed for a matched folder (the size of a best match
returned by `_find_best_match` is always defined; the sentinel branch for
`none` is unreachable, see `fbm_size_isSome`). -/
def mkReportRow (ranges : List SizeRange) (folder : List Char) (bm : Project)
    (sim : ℚ) (loc : List Char) : ReportRow :=
  ⟨folder, bm.pname, sim, bm.psize,
    match bm.psize with
    | some s => get_target_dir_report ranges s
    | none => unclassifiedLabel,
    loc⟩

/-- Inner loop of `ReportGenerator.generate` over the entries of a bucket
directory. -/
def reportSubRows (ranges : List SizeRange) (projects : List Project)
    (entryName : List Char) : List SubEntry → List ReportRow
  | [] => []
  | sub :: rest =>
    (if sub.sIsDir = true then
      match find_best_match sub.sname projects with
      | (some bm, sim) => [mkReportRow ranges sub.sname bm sim entryName]
      | (none, _) => []
    else []) ++ reportSubRows ranges projects entryName rest

/-- `ReportGenerator.generate`'s row collection (`report_data`): walk the
top-level entries; recurse one level into bucket directories (`entry in
range_dirs`), otherwise report the entry itself with the base directory's
name as its location.  The CSV serialization is outside the model. -/
def reportRows (ranges : List SizeRange) (projects : List Project)
    (baseName : List Char) : List TopEntry → List ReportRow
  | [] => []
  | e :: rest =>
    (if e.tIsDir = false then []
    else if e.tname ∈ ranges.map (·.label) then
      reportSubRows ranges projects e.tname e.subs
    else
      match find_best_match e.tname projects with
      | (some bm, sim) => [mkReportRow ranges e.tname bm sim baseName]
      | (none, _) => []) ++ reportRows ranges projects baseName rest

/-- Claim-side enumeration of the folders-to-report: top-level non-bucket
directories, plus the directories one level inside bucket directories. -/
def foldersToReport (ranges : List SizeRange) : List TopEntry → List (List Char)
  | [] => []
  | e :: rest =>
    (if e.tIsDir = false then []
    else if e.tname ∈ ranges.map (·.label) then
      ((e.subs.filter fun s => s.sIsDir).map fun s => s.sname)
    else [e.tname]) ++ foldersToReport ranges rest

example : similarity (['a', 'b', 'c', 'd']) (['b', 'c', 'd', 'e']) = 3 / 4 := by with_unfolding_all decide
example : similarity (['a', 'b']) (['b', 'a', 'c', 'b']) = 2 / 3 := by with_unfolding_all decide
example : similarity (['b', 'a', 'c', 'b']) (['a', 'b']) = 1 / 3 := by with_unfolding_all decide
example : similarity [] [] = 1 := by with_unfolding_all decide
example :
    get_ranges [⟨['0'], ['5'], ['A']⟩, ⟨['5'], ['x'], ['B']⟩] =
      .ok [⟨0, .fin 5, ['A']⟩] [.maxNotDigit ['x']] := by with_unfolding_all decide
example : isdigitStr ['²'] = true ∧ intParses ['²'] = false := by decide
example : get_ranges [⟨['0'], infLit, ['A']⟩, ⟨['²'], ['5'], ['B']⟩] =
    .raised ['²'] := by with_unfolding_all decide
example :
    get_target_dir [⟨0, .fin 5, ['A']⟩, ⟨5, .inf, ['B']⟩] 7 = some ['B'] := by
  with_unfolding_all decide

/-! ## Lemmas about `matchLen` -/

theorem matchLen_eq (a b : List Char) (pop : Char → Bool) (ahi bhi i j : Nat) :
    matchLen a b pop ahi bhi i j =
      if i < ahi ∧ j < bhi ∧ charAt a i = charAt b j ∧ pop (charAt b j) = false then
        1 + matchLen a b pop ahi bhi (i + 1) (j + 1)
      else 0 := by
  unfold matchLen
  by_cases h : i < ahi
  · have hs : ahi - i = (ahi - (i + 1)) + 1 := by omega
    rw [hs]
    rfl
  · have hs : ahi - i = 0 := by omega
    rw [hs]
    have : ¬(i < ahi ∧ j < bhi ∧ charAt a i = charAt b j ∧
        pop (charAt b j) = false) := fun hc => h hc.1
    rw [if_neg this]
    rfl

theorem matchLen_okRun (a b : List Char) (pop : Char → Bool) (ahi bhi : Nat) :
    ∀ i j, okRun a b pop ahi bhi i j (matchLen a b pop ahi bhi i j) := by
  intro i j
  have hgen : ∀ fuel i j t, t < matchLenAux a b pop ahi bhi fuel i j →
      i + t < ahi ∧ j + t < bhi ∧ charAt a (i + t) = charAt b (j + t) ∧
        pop (charAt b (j + t)) = false := by
    intro fuel
    induction fuel with
    | zero => intro i j t ht; simp [matchLenAux] at ht
    | succ f ih =>
      intro i j t ht
      rw [matchLenAux] at ht
      by_cases hc : i < ahi ∧ j < bhi ∧ charAt a i = charAt b j ∧
          pop (charAt b j) = false
      · rw [if_pos hc] at ht
        match t with
        | 0 => simpa using hc
        | t' + 1 =>
          have ht' : t' < matchLenAux a b pop ahi bhi f (i + 1) (j + 1) := by omega
          have := ih (i + 1) (j + 1) t' ht'
          have e1 : i + (t' + 1) = (i + 1) + t' := by omega
          have e2 : j + (t' + 1) = (j + 1) + t' := by omega
          rw [e1, e2]
          exact this
      · rw [if_neg hc] at ht; omega
  intro t ht
  exact hgen (ahi - i) i j t ht

theorem okRun_le_matchLen (a b : List Char) (pop : Char → Bool) (ahi bhi : Nat) :
    ∀ k i j, okRun a b pop ahi bhi i j k → k ≤ matchLen a b pop ahi bhi i j := by
  intro k
  induction k with
  | zero => intro i j _; omega
  | succ k' ih =>
    intro i j h
    have h0 := h 0 (by omega)
    simp only [Nat.add_zero] at h0
    rw [matchLen_eq, if_pos h0]
    have hsh : okRun a b pop ahi bhi (i + 1) (j + 1) k' := by
      intro t ht
      have := h (t + 1) (by omega)
      have e1 : i + (t + 1) = (i + 1) + t := by omega
      have e2 : j + (t + 1) = (j + 1) + t := by omega
      rw [e1, e2] at this
      exact this
    have := ih (i + 1) (j + 1) hsh
    omega

theorem matchLen_bounds (a b : List Char) (pop : Char → Bool) (ahi bhi i j : Nat)
    (h : matchLen a b pop ahi bhi i j ≠ 0) :
    i + matchLen a b pop ahi bhi i j ≤ ahi ∧
      j + matchLen a b pop ahi bhi i j ≤ bhi := by
  have := matchLen_okRun a b pop ahi bhi i j
      (matchLen a b pop ahi bhi i j - 1) (by omega)
  omega

/-! ## The scan of `find_longest_match` returns the maximal block whose
start is earliest in `a`, then earliest in `b` -/

theorem bestRowAux_spec (a b : List Char) (pop : Char → Bool) (ahi bhi i : Nat) :
    ∀ fuel j cur,
      cur.2.2 ≤ (bestRowAux a b pop ahi bhi i fuel j cur).2.2 ∧
      (∀ t, j ≤ t → t < j + fuel →
        matchLen a b pop ahi bhi i t ≤
          (bestRowAux a b pop ahi bhi i fuel j cur).2.2) ∧
      (bestRowAux a b pop ahi bhi i fuel j cur = cur ∨
        ∃ t, j ≤ t ∧ t < j + fuel ∧
          bestRowAux a b pop ahi bhi i fuel j cur =
            (i, t, matchLen a b pop ahi bhi i t) ∧
          cur.2.2 < matchLen a b pop ahi bhi i t ∧
          ∀ u, j ≤ u → u < t →
            matchLen a b pop ahi bhi i u < matchLen a b pop ahi bhi i t) := by
  intro fuel
  induction fuel with
  | zero =>
    intro j cur
    refine ⟨Nat.le_refl _, ?_, Or.inl rfl⟩
    intro t ht1 ht2
    omega
  | succ f ih =>
    intro j cur
    simp only [bestRowAux]
    by_cases hup : cur.2.2 < matchLen a b pop ahi bhi i j
    · rw [if_pos hup]
      obtain ⟨ih1, ih2, ih3⟩ := ih (j + 1) (i, j, matchLen a b pop ahi bhi i j)
      have hsnd : (i, j, matchLen a b pop ahi bhi i j).2.2 =
          matchLen a b pop ahi bhi i j := rfl
      rw [hsnd] at ih1
      refine ⟨by omega, ?_, ?_⟩
      · intro t ht1 ht2
        rcases Nat.eq_or_lt_of_le ht1 with h | h
        · subst h; omega
        · exact ih2 t (by omega) (by omega)
      · rcases ih3 with heq | ⟨t, ht1, ht2, heq, hlt, hmin⟩
        · right
          exact ⟨j, Nat.le_refl _, by omega, heq, hup, fun u hu1 hu2 => by omega⟩
        · right
          rw [hsnd] at hlt
          refine ⟨t, by omega, by omega, heq, by omega, ?_⟩
          intro u hu1 hu2
          rcases Nat.eq_or_lt_of_le hu1 with h | h
          · subst h; omega
          · exact hmin u (by omega) hu2
    · rw [if_neg hup]
      obtain ⟨ih1, ih2, ih3⟩ := ih (j + 1) cur
      refine ⟨ih1, ?_, ?_⟩
      · intro t ht1 ht2
        rcases Nat.eq_or_lt_of_le ht1 with h | h
        · subst h; omega
        · exact ih2 t (by omega) (by omega)
      · rcases ih3 with heq | ⟨t, ht1, ht2, heq, hlt, hmin⟩
        · exact Or.inl heq
        · right
          refine ⟨t, by omega, by omega, heq, hlt, ?_⟩
          intro u hu1 hu2
          rcases Nat.eq_or_lt_of_le hu1 with h | h
          · subst h; omega
          · exact hmin u (by omega) hu2

theorem bestAllAux_spec (a b : List Char) (pop : Char → Bool) (ahi bhi blo : Nat) :
    ∀ fuelI i cur,
      cur.2.2 ≤ (bestAllAux a b pop ahi bhi blo fuelI i cur).2.2 ∧
      (∀ p q, i ≤ p → p < i + fuelI → blo ≤ q → q < blo + (bhi - blo) →
        matchLen a b pop ahi bhi p q ≤
          (bestAllAux a b pop ahi bhi blo fuelI i cur).2.2) ∧
      (bestAllAux a b pop ahi bhi blo fuelI i cur = cur ∨
        ∃ p t, i ≤ p ∧ p < i + fuelI ∧ blo ≤ t ∧ t < blo + (bhi - blo) ∧
          bestAllAux a b pop ahi bhi blo fuelI i cur =
            (p, t, matchLen a b pop ahi bhi p t) ∧
          cur.2.2 < matchLen a b pop ahi bhi p t ∧
          (∀ p' q, i ≤ p' → p' < p → blo ≤ q → q < blo + (bhi - blo) →
            matchLen a b pop ahi bhi p' q < matchLen a b pop ahi bhi p t) ∧
          (∀ q, blo ≤ q → q < t →
            matchLen a b pop ahi bhi p q < matchLen a b pop ahi bhi p t)) := by
  intro fuelI
  induction fuelI with
  | zero =>
    intro i cur
    refine ⟨Nat.le_refl _, ?_, Or.inl rfl⟩
    intro p q hp1 hp2
    omega
  | succ f ih =>
    intro i cur
    simp only [bestAllAux]
    obtain ⟨r1, r2, r3⟩ := bestRowAux_spec a b pop ahi bhi i (bhi - blo) blo cur
    obtain ⟨ih1, ih2, ih3⟩ :=
      ih (i + 1) (bestRowAux a b pop ahi bhi i (bhi - blo) blo cur)
    refine ⟨by omega, ?_, ?_⟩
    · intro p q hp1 hp2 hq1 hq2
      rcases Nat.eq_or_lt_of_le hp1 with h | h
      · subst h
        have := r2 q hq1 (by omega)
        omega
      · exact ih2 p q (by omega) (by omega) hq1 hq2
    · rcases ih3 with heq | ⟨p, t, hp1, hp2, ht1, ht2, heq, hlt, hminr, hminc⟩
      · rw [heq]
        rcases r3 with req | ⟨t, ht1, ht2, req, rlt, rmin⟩
        · exact Or.inl req
        · right
          refine ⟨i, t, Nat.le_refl _, by omega, by omega, by omega, req, rlt, ?_, ?_⟩
          · intro p' q hp'1 hp'2
            omega
          · intro u hu1 hu2
            exact rmin u (by omega) hu2
      · right
        refine ⟨p, t, by omega, by omega, ht1, ht2, heq, by omega, ?_, hminc⟩
        intro p' q hp'1 hp'2 hq1 hq2
        rcases Nat.eq_or_lt_of_le hp'1 with h | h
        · subst h
          have := r2 q hq1 (by omega)
          omega
        · exact hminr p' q (by omega) hp'2 hq1 hq2

/-- Upper bound: no block in the window beats the scan's best size. -/
theorem dpBest_ub (a b : List Char) (pop : Char → Bool) (alo ahi blo bhi : Nat)
    (p q : Nat) (hp1 : alo ≤ p) (hp2 : p < ahi) (hq1 : blo ≤ q) (hq2 : q < bhi) :
    matchLen a b pop ahi bhi p q ≤ (dpBest a b pop alo ahi blo bhi).2.2 := by
  obtain ⟨_, h2, _⟩ :=
    bestAllAux_spec a b pop ahi bhi blo (ahi - alo) alo (alo, blo, 0)
  exact h2 p q hp1 (by omega) hq1 (by omega)

/-- When the scan finds nothing it returns `(alo, blo, 0)`. -/
theorem dpBest_zero (a b : List Char) (pop : Char → Bool) (alo ahi blo bhi : Nat)
    (h : (dpBest a b pop alo ahi blo bhi).2.2 = 0) :
    dpBest a b pop alo ahi blo bhi = (alo, blo, 0) := by
  unfold dpBest at h ⊢
  obtain ⟨_, _, h3⟩ :=
    bestAllAux_spec a b pop ahi bhi blo (ahi - alo) alo (alo, blo, 0)
  rcases h3 with heq | ⟨p, t, _, _, _, _, heq, hlt, _, _⟩
  · exact heq
  · rw [heq] at h
    simp only at h
    omega

/-- When the scan finds a block, the result is an achieved block, maximal,
with all lexicographically earlier starts strictly smaller. -/
theorem dpBest_ach (a b : List Char) (pop : Char → Bool) (alo ahi blo bhi : Nat)
    (h : (dpBest a b pop alo ahi blo bhi).2.2 ≠ 0) :
    ∃ p t, alo ≤ p ∧ p < ahi ∧ blo ≤ t ∧ t < bhi ∧
      dpBest a b pop alo ahi blo bhi = (p, t, matchLen a b pop ahi bhi p t) ∧
      (∀ p' q, alo ≤ p' → p' < p → blo ≤ q → q < bhi →
        matchLen a b pop ahi bhi p' q < matchLen a b pop ahi bhi p t) ∧
      (∀ q, blo ≤ q → q < t →
        matchLen a b pop ahi bhi p q < matchLen a b pop ahi bhi p t) := by
  unfold dpBest at h ⊢
  obtain ⟨_, _, h3⟩ :=
    bestAllAux_spec a b pop ahi bhi blo (ahi - alo) alo (alo, blo, 0)
  rcases h3 with heq | ⟨p, t, hp1, hp2, ht1, ht2, heq, hlt, hminr, hminc⟩
  · rw [heq] at h
    simp at h
  · refine ⟨p, t, hp1, by omega, ht1, by omega, heq, ?_, ?_⟩
    · intro p' q h1 h2 h3' h4
      exact hminr p' q h1 h2 h3' (by omega)
    · exact hminc

/-! ## Lemmas about the extension loops -/

theorem extendBackAux_noJunk (a b : List Char) (alo blo : Nat) :
    ∀ fuel s, extendBackAux a b noJunk alo blo fuel s = s := by
  intro fuel
  induction fuel with
  | zero => intro s; rfl
  | succ f ih =>
    rintro ⟨bi, bj, bk⟩
    simp [extendBackAux, noJunk]

theorem extendFwdAux_noJunk (a b : List Char) (ahi bhi : Nat) :
    ∀ fuel s, extendFwdAux a b noJunk ahi bhi fuel s = s := by
  intro fuel
  induction fuel with
  | zero => intro s; rfl
  | succ f ih =>
    rintro ⟨bi, bj, bk⟩
    simp [extendFwdAux, noJunk]

theorem extendBack_cond_false (a b : List Char) (ok : Char → Bool)
    (alo blo : Nat) (s : Nat × Nat × Nat)
    (h : ¬(alo < s.1 ∧ blo < s.2.1 ∧ ok (charAt b (s.2.1 - 1)) = true ∧
      charAt a (s.1 - 1) = charAt b (s.2.1 - 1))) :
    extendBack a b ok alo blo s = s := by
  obtain ⟨bi, bj, bk⟩ := s
  unfold extendBack
  match hf : bi with
  | 0 => rfl
  | m + 1 =>
    simp only [extendBackAux]
    rw [if_neg (by simpa using h)]

theorem extendFwd_cond_false (a b : List Char) (ok : Char → Bool)
    (ahi bhi : Nat) (s : Nat × Nat × Nat)
    (h : ¬(s.1 + s.2.2 < ahi ∧ s.2.1 + s.2.2 < bhi ∧
      ok (charAt b (s.2.1 + s.2.2)) = true ∧
      charAt a (s.1 + s.2.2) = charAt b (s.2.1 + s.2.2))) :
    extendFwd a b ok ahi bhi s = s := by
  obtain ⟨bi, bj, bk⟩ := s
  unfold extendFwd
  match hf : ahi - (bi + bk) with
  | 0 => rfl
  | m + 1 =>
    simp only [extendFwdAux]
    rw [if_neg (by simpa using h)]

theorem extendBackAux_pres (a b : List Char) (ok : Char → Bool)
    (alo blo ahi bhi : Nat) :
    ∀ fuel bi bj bk, alo ≤ bi → blo ≤ bj →
      alo ≤ (extendBackAux a b ok alo blo fuel (bi, bj, bk)).1 ∧
      blo ≤ (extendBackAux a b ok alo blo fuel (bi, bj, bk)).2.1 ∧
      (extendBackAux a b ok alo blo fuel (bi, bj, bk)).1 +
        (extendBackAux a b ok alo blo fuel (bi, bj, bk)).2.2 = bi + bk ∧
      (extendBackAux a b ok alo blo fuel (bi, bj, bk)).2.1 +
        (extendBackAux a b ok alo blo fuel (bi, bj, bk)).2.2 = bj + bk ∧
      bk ≤ (extendBackAux a b ok alo blo fuel (bi, bj, bk)).2.2 := by
  intro fuel
  induction fuel with
  | zero =>
    intro bi bj bk h1 h2
    exact ⟨h1, h2, rfl, rfl, Nat.le_refl _⟩
  | succ f ih =>
    intro bi bj bk h1 h2
    simp only [extendBackAux]
    by_cases hc : alo < bi ∧ blo < bj ∧ ok (charAt b (bj - 1)) = true ∧
        charAt a (bi - 1) = charAt b (bj - 1)
    · rw [if_pos hc]
      have := ih (bi - 1) (bj - 1) (bk + 1) (by omega) (by omega)
      have e1 : bi - 1 + (bk + 1) = bi + bk := by omega
      have e2 : bj - 1 + (bk + 1) = bj + bk := by omega
      omega
    · rw [if_neg hc]
      exact ⟨h1, h2, rfl, rfl, Nat.le_refl _⟩

theorem extendFwdAux_pres (a b : List Char) (ok : Char → Bool) (ahi bhi : Nat) :
    ∀ fuel bi bj bk,
      (extendFwdAux a b ok ahi bhi fuel (bi, bj, bk)).1 = bi ∧
      (extendFwdAux a b ok ahi bhi fuel (bi, bj, bk)).2.1 = bj ∧
      bk ≤ (extendFwdAux a b ok ahi bhi fuel (bi, bj, bk)).2.2 ∧
      ((extendFwdAux a b ok ahi bhi fuel (bi, bj, bk)).2.2 = bk ∨
        (bi + (extendFwdAux a b ok ahi bhi fuel (bi, bj, bk)).2.2 ≤ ahi ∧
          bj + (extendFwdAux a b ok ahi bhi fuel (bi, bj, bk)).2.2 ≤ bhi)) := by
  intro fuel
  induction fuel with
  | zero =>
    intro bi bj bk
    exact ⟨rfl, rfl, Nat.le_refl _, Or.inl rfl⟩
  | succ f ih =>
    intro bi bj bk
    simp only [extendFwdAux]
    by_cases hc : bi + bk < ahi ∧ bj + bk < bhi ∧
        ok (charAt b (bj + bk)) = true ∧ charAt a (bi + bk) = charAt b (bj + bk)
    · rw [if_pos hc]
      have := ih bi bj (bk + 1)
      omega
    · rw [if_neg hc]
      exact ⟨rfl, rfl, Nat.le_refl _, Or.inl rfl⟩

/-! ## Diagonal behaviour on identical sequences -/

theorem dpBest_diag (a : List Char) (pop : Char → Bool) (n : Nat) :
    ∃ d k, dpBest a a pop 0 n 0 n = (d, d, k) ∧ d + k ≤ n := by
  by_cases hz : (dpBest a a pop 0 n 0 n).2.2 = 0
  · exact ⟨0, 0, dpBest_zero a a pop 0 n 0 n hz, by omega⟩
  · obtain ⟨p, t, hp1, hp2, ht1, ht2, heq, hminr, hminc⟩ :=
      dpBest_ach a a pop 0 n 0 n hz
    have hmlne : matchLen a a pop n n p t ≠ 0 := by
      rw [heq] at hz
      exact hz
    have hrun := matchLen_okRun a a pop n n p t
    have hpt : p = t := by
      by_contra hne
      rcases Nat.lt_or_ge p t with hlt | hge
      · -- the same block placed at (p, p) is also valid, and (p, p) is
        -- scanned before (p, t) in the same row
        have hok : okRun a a pop n n p p (matchLen a a pop n n p t) := by
          intro s hs
          obtain ⟨c1, c2, c3, c4⟩ := hrun s hs
          refine ⟨c1, c1, rfl, ?_⟩
          rw [c3]
          exact c4
        have hle := okRun_le_matchLen a a pop n n _ p p hok
        have := hminc p (by omega) hlt
        omega
      · have hlt : t < p := by omega
        -- the same block placed at (t, t) is also valid, in an earlier row
        have hok : okRun a a pop n n t t (matchLen a a pop n n p t) := by
          intro s hs
          obtain ⟨c1, c2, c3, c4⟩ := hrun s hs
          exact ⟨c2, c2, rfl, c4⟩
        have hle := okRun_le_matchLen a a pop n n _ t t hok
        have := hminr t t (by omega) hlt (by omega) ht2
        omega
    subst hpt
    refine ⟨p, matchLen a a pop n n p p, heq, ?_⟩
    exact (matchLen_bounds a a pop n n p p hmlne).1

theorem extendBackAux_diag (a : List Char) (n : Nat) :
    ∀ d k, extendBackAux a a (fun c => !noJunk c) 0 0 d (d, d, k) = (0, 0, k + d) := by
  intro d
  induction d with
  | zero => intro k; rfl
  | succ d ih =>
    intro k
    simp only [extendBackAux]
    rw [if_pos (by simp [noJunk])]
    have e : d + 1 - 1 = d := by omega
    rw [e, ih (k + 1)]
    have e2 : k + 1 + d = k + (d + 1) := by omega
    rw [e2]

theorem extendFwdAux_diag (a : List Char) (n : Nat) :
    ∀ fuel m, m + fuel ≤ n →
      extendFwdAux a a (fun c => !noJunk c) n n fuel (0, 0, m) = (0, 0, m + fuel) := by
  intro fuel
  induction fuel with
  | zero => intro m _; rfl
  | succ f ih =>
    intro m hm
    simp only [extendFwdAux]
    rw [if_pos (by simp [noJunk]; omega)]
    rw [ih (m + 1) (by omega)]
    have e : m + 1 + f = m + (f + 1) := by omega
    rw [e]

theorem findLongestMatch_unfold (a b : List Char) (pop junk : Char → Bool)
    (alo ahi blo bhi : Nat) :
    findLongestMatch a b pop junk alo ahi blo bhi =
      extendFwd a b junk ahi bhi (extendBack a b junk alo blo
        (extendFwd a b (fun c => !junk c) ahi bhi
          (extendBack a b (fun c => !junk c) alo blo
            (dpBest a b pop alo ahi blo bhi)))) := rfl

/-- `find_longest_match` on two copies of the same sequence covers the whole
window: the scan's best is diagonal, and the non-junk extension loops then
stretch it to the full diagonal. -/
theorem findLongestMatch_self (a : List Char) (pop : Char → Bool) (n : Nat) :
    findLongestMatch a a pop noJunk 0 n 0 n = (0, 0, n) := by
  obtain ⟨d, k, heq, hdk⟩ := dpBest_diag a pop n
  rw [findLongestMatch_unfold, heq]
  have h1 : extendBack a a (fun c => !noJunk c) 0 0 (d, d, k) = (0, 0, k + d) := by
    unfold extendBack
    exact extendBackAux_diag a n d k
  rw [h1]
  have h2 : extendFwd a a (fun c => !noJunk c) n n (0, 0, k + d) = (0, 0, n) := by
    unfold extendFwd
    have e : n - ((0, 0, k + d).1 + (0, 0, k + d).2.2) = n - (k + d) := by simp
    rw [e, extendFwdAux_diag a n (n - (k + d)) (k + d) (by omega)]
    have e2 : k + d + (n - (k + d)) = n := by omega
    rw [e2]
  rw [h2]
  have h3 : extendBack a a noJunk 0 0 (0, 0, n) = (0, 0, n) := by
    unfold extendBack
    exact extendBackAux_noJunk a a 0 0 _ _
  rw [h3]
  unfold extendFwd
  exact extendFwdAux_noJunk a a n n _ _

/-- With an empty popular set the scan already finds a maximal block, so no
extension loop can fire and `find_longest_match` is exactly the scan. -/
theorem findLongestMatch_noPop (a b : List Char) (alo ahi blo bhi : Nat) :
    findLongestMatch a b noJunk noJunk alo ahi blo bhi =
      dpBest a b noJunk alo ahi blo bhi := by
  have hjunkB : ∀ s, extendBack a b noJunk alo blo s = s := by
    intro s
    unfold extendBack
    exact extendBackAux_noJunk a b alo blo _ _
  have hjunkF : ∀ s, extendFwd a b noJunk ahi bhi s = s := by
    intro s
    unfold extendFwd
    exact extendFwdAux_noJunk a b ahi bhi _ _
  by_cases hz : (dpBest a b noJunk alo ahi blo bhi).2.2 = 0
  · have hinit := dpBest_zero a b noJunk alo ahi blo bhi hz
    rw [findLongestMatch_unfold, hinit]
    have hb : extendBack a b (fun c => !noJunk c) alo blo (alo, blo, 0) =
        (alo, blo, 0) := by
      apply extendBack_cond_false
      rintro ⟨h1, -⟩
      exact absurd h1 (Nat.lt_irrefl alo)
    have hf : extendFwd a b (fun c => !noJunk c) ahi bhi (alo, blo, 0) =
        (alo, blo, 0) := by
      apply extendFwd_cond_false
      rintro ⟨h1, h2, -, h4⟩
      have h1' : alo < ahi := h1
      have h2' : blo < bhi := h2
      have h4' : charAt a alo = charAt b blo := h4
      have hok : okRun a b noJunk ahi bhi alo blo 1 := by
        intro t ht
        have ht0 : t = 0 := by omega
        subst ht0
        exact ⟨by omega, by omega, h4', rfl⟩
      have hle := okRun_le_matchLen a b noJunk ahi bhi 1 alo blo hok
      have hub := dpBest_ub a b noJunk alo ahi blo bhi alo blo (Nat.le_refl _)
        h1' (Nat.le_refl _) h2'
      omega
    rw [hb, hf, hjunkB, hjunkF]
  · obtain ⟨p, t, hp1, hp2, ht1, ht2, heq, hminr, hminc⟩ :=
      dpBest_ach a b noJunk alo ahi blo bhi hz
    have hk : matchLen a b noJunk ahi bhi p t ≠ 0 := by
      rw [heq] at hz
      exact hz
    have hrun := matchLen_okRun a b noJunk ahi bhi p t
    have hbounds := matchLen_bounds a b noJunk ahi bhi p t hk
    rw [findLongestMatch_unfold, heq]
    have hb : extendBack a b (fun c => !noJunk c) alo blo
        (p, t, matchLen a b noJunk ahi bhi p t) =
        (p, t, matchLen a b noJunk ahi bhi p t) := by
      apply extendBack_cond_false
      rintro ⟨h1, h2, -, h4⟩
      have h1' : alo < p := h1
      have h2' : blo < t := h2
      have h4' : charAt a (p - 1) = charAt b (t - 1) := h4
      have hok : okRun a b noJunk ahi bhi (p - 1) (t - 1)
          (matchLen a b noJunk ahi bhi p t + 1) := by
        intro s hs
        match s with
        | 0 =>
          refine ⟨by omega, by omega, ?_, rfl⟩
          simpa using h4'
        | s + 1 =>
          obtain ⟨c1, c2, c3, c4⟩ := hrun s (by omega)
          have e1 : p - 1 + (s + 1) = p + s := by omega
          have e2 : t - 1 + (s + 1) = t + s := by omega
          rw [e1, e2]
          exact ⟨c1, c2, c3, c4⟩
      have hle := okRun_le_matchLen a b noJunk ahi bhi _ (p - 1) (t - 1) hok
      have hub := dpBest_ub a b noJunk alo ahi blo bhi (p - 1) (t - 1)
        (by omega) (by omega) (by omega) (by omega)
      rw [heq] at hub
      have hub' : matchLen a b noJunk ahi bhi (p - 1) (t - 1) ≤
          matchLen a b noJunk ahi bhi p t := hub
      omega
    have hf : extendFwd a b (fun c => !noJunk c) ahi bhi
        (p, t, matchLen a b noJunk ahi bhi p t) =
        (p, t, matchLen a b noJunk ahi bhi p t) := by
      apply extendFwd_cond_false
      rintro ⟨h1, h2, -, h4⟩
      have h1' : p + matchLen a b noJunk ahi bhi p t < ahi := h1
      have h2' : t + matchLen a b noJunk ahi bhi p t < bhi := h2
      have h4' : charAt a (p + matchLen a b noJunk ahi bhi p t) =
          charAt b (t + matchLen a b noJunk ahi bhi p t) := h4
      have hok : okRun a b noJunk ahi bhi p t
          (matchLen a b noJunk ahi bhi p t + 1) := by
        intro s hs
        by_cases hsl : s < matchLen a b noJunk ahi bhi p t
        · exact hrun s hsl
        · have hse : s = matchLen a b noJunk ahi bhi p t := by omega
          subst hse
          exact ⟨h1', h2', h4', rfl⟩
      have hle := okRun_le_matchLen a b noJunk ahi bhi _ p t hok
      omega
    rw [hb, hf, hjunkB, hjunkF]

theorem extendBack_pres (a b : List Char) (ok : Char → Bool) (alo blo : Nat)
    (s : Nat × Nat × Nat) (h1 : alo ≤ s.1) (h2 : blo ≤ s.2.1) :
    alo ≤ (extendBack a b ok alo blo s).1 ∧
    blo ≤ (extendBack a b ok alo blo s).2.1 ∧
    (extendBack a b ok alo blo s).1 + (extendBack a b ok alo blo s).2.2 =
      s.1 + s.2.2 ∧
    (extendBack a b ok alo blo s).2.1 + (extendBack a b ok alo blo s).2.2 =
      s.2.1 + s.2.2 ∧
    s.2.2 ≤ (extendBack a b ok alo blo s).2.2 := by
  obtain ⟨bi, bj, bk⟩ := s
  exact extendBackAux_pres a b ok alo blo 0 0 bi bi bj bk h1 h2

theorem extendFwd_pres (a b : List Char) (ok : Char → Bool) (ahi bhi : Nat)
    (s : Nat × Nat × Nat) :
    (extendFwd a b ok ahi bhi s).1 = s.1 ∧
    (extendFwd a b ok ahi bhi s).2.1 = s.2.1 ∧
    s.2.2 ≤ (extendFwd a b ok ahi bhi s).2.2 ∧
    ((extendFwd a b ok ahi bhi s).2.2 = s.2.2 ∨
      (s.1 + (extendFwd a b ok ahi bhi s).2.2 ≤ ahi ∧
        s.2.1 + (extendFwd a b ok ahi bhi s).2.2 ≤ bhi)) := by
  obtain ⟨bi, bj, bk⟩ := s
  exact extendFwdAux_pres a b ok ahi bhi (ahi - (bi + bk)) bi bj bk

/-- Result bounds for `find_longest_match`: an empty result sits at the
window origin, a non-empty one lies inside the window. -/
theorem findLongestMatch_pres (a b : List Char) (pop junk : Char → Bool)
    (alo ahi blo bhi : Nat) :
    ((findLongestMatch a b pop junk alo ahi blo bhi).2.2 = 0 →
      findLongestMatch a b pop junk alo ahi blo bhi = (alo, blo, 0)) ∧
    ((findLongestMatch a b pop junk alo ahi blo bhi).2.2 ≠ 0 →
      alo ≤ (findLongestMatch a b pop junk alo ahi blo bhi).1 ∧
      blo ≤ (findLongestMatch a b pop junk alo ahi blo bhi).2.1 ∧
      (findLongestMatch a b pop junk alo ahi blo bhi).1 +
        (findLongestMatch a b pop junk alo ahi blo bhi).2.2 ≤ ahi ∧
      (findLongestMatch a b pop junk alo ahi blo bhi).2.1 +
        (findLongestMatch a b pop junk alo ahi blo bhi).2.2 ≤ bhi) := by
  have hInvB : ∀ (ok : Char → Bool) (s : Nat × Nat × Nat),
      ((s.2.2 = 0 → s = (alo, blo, 0)) ∧
        (s.2.2 ≠ 0 → alo ≤ s.1 ∧ blo ≤ s.2.1 ∧ s.1 + s.2.2 ≤ ahi ∧
          s.2.1 + s.2.2 ≤ bhi)) →
      (((extendBack a b ok alo blo s).2.2 = 0 →
          extendBack a b ok alo blo s = (alo, blo, 0)) ∧
        ((extendBack a b ok alo blo s).2.2 ≠ 0 →
          alo ≤ (extendBack a b ok alo blo s).1 ∧
          blo ≤ (extendBack a b ok alo blo s).2.1 ∧
          (extendBack a b ok alo blo s).1 + (extendBack a b ok alo blo s).2.2 ≤ ahi ∧
          (extendBack a b ok alo blo s).2.1 + (extendBack a b ok alo blo s).2.2 ≤ bhi)) := by
    intro ok s ⟨hz, hnz⟩
    by_cases h0 : s.2.2 = 0
    · have hs := hz h0
      subst hs
      have hid : extendBack a b ok alo blo (alo, blo, 0) = (alo, blo, 0) := by
        apply extendBack_cond_false
        rintro ⟨h1, -⟩
        exact absurd h1 (Nat.lt_irrefl alo)
      rw [hid]
      exact ⟨fun _ => rfl, fun hne => absurd rfl hne⟩
    · obtain ⟨b1, b2, b3, b4⟩ := hnz h0
      have hpres := extendBack_pres a b ok alo blo s b1 b2
      constructor
      · intro hzz
        exfalso
        omega
      · intro _
        refine ⟨hpres.1, hpres.2.1, by omega, by omega⟩
  have hInvF : ∀ (ok : Char → Bool) (s : Nat × Nat × Nat),
      ((s.2.2 = 0 → s = (alo, blo, 0)) ∧
        (s.2.2 ≠ 0 → alo ≤ s.1 ∧ blo ≤ s.2.1 ∧ s.1 + s.2.2 ≤ ahi ∧
          s.2.1 + s.2.2 ≤ bhi)) →
      (((extendFwd a b ok ahi bhi s).2.2 = 0 →
          extendFwd a b ok ahi bhi s = (alo, blo, 0)) ∧
        ((extendFwd a b ok ahi bhi s).2.2 ≠ 0 →
          alo ≤ (extendFwd a b ok ahi bhi s).1 ∧
          blo ≤ (extendFwd a b ok ahi bhi s).2.1 ∧
          (extendFwd a b ok ahi bhi s).1 + (extendFwd a b ok ahi bhi s).2.2 ≤ ahi ∧
          (extendFwd a b ok ahi bhi s).2.1 + (extendFwd a b ok ahi bhi s).2.2 ≤ bhi)) := by
    intro ok s ⟨hz, hnz⟩
    have hpres := extendFwd_pres a b ok ahi bhi s
    by_cases h0 : s.2.2 = 0
    · have hs := hz h0
      have hs1 : s.1 = alo := by rw [hs]
      have hs2 : s.2.1 = blo := by rw [hs]
      constructor
      · intro hzz
        have e1 : (extendFwd a b ok ahi bhi s).1 = alo := by rw [hpres.1, hs1]
        have e2 : (extendFwd a b ok ahi bhi s).2.1 = blo := by rw [hpres.2.1, hs2]
        have heta : extendFwd a b ok ahi bhi s =
            ((extendFwd a b ok ahi bhi s).1, (extendFwd a b ok ahi bhi s).2.1,
              (extendFwd a b ok ahi bhi s).2.2) := rfl
        rw [heta, e1, e2, hzz]
      · intro hne
        rcases hpres.2.2.2 with hsame | ⟨hA, hB⟩
        · exact absurd (by omega) hne
        · refine ⟨by omega, by omega, by omega, by omega⟩
    · obtain ⟨b1, b2, b3, b4⟩ := hnz h0
      constructor
      · intro hzz
        exfalso
        omega
      · intro _
        rcases hpres.2.2.2 with hsame | ⟨hA, hB⟩
        · refine ⟨by omega, by omega, by omega, by omega⟩
        · refine ⟨by omega, by omega, by omega, by omega⟩
  have hdp : ((dpBest a b pop alo ahi blo bhi).2.2 = 0 →
      dpBest a b pop alo ahi blo bhi = (alo, blo, 0)) ∧
      ((dpBest a b pop alo ahi blo bhi).2.2 ≠ 0 →
        alo ≤ (dpBest a b pop alo ahi blo bhi).1 ∧
        blo ≤ (dpBest a b pop alo ahi blo bhi).2.1 ∧
        (dpBest a b pop alo ahi blo bhi).1 +
          (dpBest a b pop alo ahi blo bhi).2.2 ≤ ahi ∧
        (dpBest a b pop alo ahi blo bhi).2.1 +
          (dpBest a b pop alo ahi blo bhi).2.2 ≤ bhi) := by
    constructor
    · exact dpBest_zero a b pop alo ahi blo bhi
    · intro hne
      obtain ⟨p, t, hp1, hp2, ht1, ht2, heq, -, -⟩ :=
        dpBest_ach a b pop alo ahi blo bhi hne
      have hk : matchLen a b pop ahi bhi p t ≠ 0 := by
        rw [heq] at hne
        exact hne
      have hbd := matchLen_bounds a b pop ahi bhi p t hk
      rw [heq]
      exact ⟨hp1, ht1,
        (by omega : p + matchLen a b pop ahi bhi p t ≤ ahi),
        (by omega : t + matchLen a b pop ahi bhi p t ≤ bhi)⟩
  rw [findLongestMatch_unfold]
  exact hInvF junk _ (hInvB junk _ (hInvF (fun c => !junk c) _
    (hInvB (fun c => !junk c) _ hdp)))

/-! ## Lemmas about the matched total -/

theorem bestAllAux_rowZero (a b : List Char) (pop : Char → Bool)
    (ahi bhi blo : Nat) (h : bhi - blo = 0) :
    ∀ fuelI i cur, bestAllAux a b pop ahi bhi blo fuelI i cur = cur := by
  intro fuelI
  induction fuelI with
  | zero => intro i cur; rfl
  | succ f ih =>
    intro i cur
    simp only [bestAllAux, h]
    exact ih (i + 1) cur

theorem dpBest_degenerate (a b : List Char) (pop : Char → Bool)
    (alo ahi blo bhi : Nat) (h : ahi ≤ alo ∨ bhi ≤ blo) :
    dpBest a b pop alo ahi blo bhi = (alo, blo, 0) := by
  unfold dpBest
  rcases h with h | h
  · rw [show ahi - alo = 0 by omega]
    rfl
  · exact bestAllAux_rowZero a b pop ahi bhi blo (by omega) _ alo _

theorem matchesSumAux_zero (a b : List Char) (pop junk : Char → Bool)
    (alo ahi blo bhi : Nat)
    (h : (findLongestMatch a b pop junk alo ahi blo bhi).2.2 = 0) :
    ∀ fuel, matchesSumAux a b pop junk fuel alo ahi blo bhi = 0 := by
  intro fuel
  match fuel with
  | 0 => rfl
  | f + 1 =>
    simp only [matchesSumAux]
    rw [if_pos h]

theorem matchesSumAux_le (a b : List Char) (pop junk : Char → Bool) :
    ∀ fuel alo ahi blo bhi,
      matchesSumAux a b pop junk fuel alo ahi blo bhi ≤ ahi - alo ∧
      matchesSumAux a b pop junk fuel alo ahi blo bhi ≤ bhi - blo := by
  intro fuel
  induction fuel with
  | zero =>
    intro alo ahi blo bhi
    exact ⟨Nat.zero_le _, Nat.zero_le _⟩
  | succ f ih =>
    intro alo ahi blo bhi
    simp only [matchesSumAux]
    by_cases hz : (findLongestMatch a b pop junk alo ahi blo bhi).2.2 = 0
    · rw [if_pos hz]
      exact ⟨Nat.zero_le _, Nat.zero_le _⟩
    · rw [if_neg hz]
      obtain ⟨hb1, hb2, hb3, hb4⟩ :=
        (findLongestMatch_pres a b pop junk alo ahi blo bhi).2 hz
      have hL : (if alo < (findLongestMatch a b pop junk alo ahi blo bhi).1 ∧
            blo < (findLongestMatch a b pop junk alo ahi blo bhi).2.1 then
          matchesSumAux a b pop junk f alo
            (findLongestMatch a b pop junk alo ahi blo bhi).1 blo
            (findLongestMatch a b pop junk alo ahi blo bhi).2.1
        else 0) ≤ (findLongestMatch a b pop junk alo ahi blo bhi).1 - alo ∧
          (if alo < (findLongestMatch a b pop junk alo ahi blo bhi).1 ∧
            blo < (findLongestMatch a b pop junk alo ahi blo bhi).2.1 then
          matchesSumAux a b pop junk f alo
            (findLongestMatch a b pop junk alo ahi blo bhi).1 blo
            (findLongestMatch a b pop junk alo ahi blo bhi).2.1
        else 0) ≤ (findLongestMatch a b pop junk alo ahi blo bhi).2.1 - blo := by
        split
        · exact ih alo _ blo _
        · exact ⟨Nat.zero_le _, Nat.zero_le _⟩
      have hR : (if (findLongestMatch a b pop junk alo ahi blo bhi).1 +
              (findLongestMatch a b pop junk alo ahi blo bhi).2.2 < ahi ∧
            (findLongestMatch a b pop junk alo ahi blo bhi).2.1 +
              (findLongestMatch a b pop junk alo ahi blo bhi).2.2 < bhi then
          matchesSumAux a b pop junk f
            ((findLongestMatch a b pop junk alo ahi blo bhi).1 +
              (findLongestMatch a b pop junk alo ahi blo bhi).2.2) ahi
            ((findLongestMatch a b pop junk alo ahi blo bhi).2.1 +
              (findLongestMatch a b pop junk alo ahi blo bhi).2.2) bhi
        else 0) ≤ ahi - ((findLongestMatch a b pop junk alo ahi blo bhi).1 +
            (findLongestMatch a b pop junk alo ahi blo bhi).2.2) ∧
          (if (findLongestMatch a b pop junk alo ahi blo bhi).1 +
              (findLongestMatch a b pop junk alo ahi blo bhi).2.2 < ahi ∧
            (findLongestMatch a b pop junk alo ahi blo bhi).2.1 +
              (findLongestMatch a b pop junk alo ahi blo bhi).2.2 < bhi then
          matchesSumAux a b pop junk f
            ((findLongestMatch a b pop junk alo ahi blo bhi).1 +
              (findLongestMatch a b pop junk alo ahi blo bhi).2.2) ahi
            ((findLongestMatch a b pop junk alo ahi blo bhi).2.1 +
              (findLongestMatch a b pop junk alo ahi blo bhi).2.2) bhi
        else 0) ≤ bhi - ((findLongestMatch a b pop junk alo ahi blo bhi).2.1 +
            (findLongestMatch a b pop junk alo ahi blo bhi).2.2) := by
        split
        · exact ih _ ahi _ bhi
        · exact ⟨Nat.zero_le _, Nat.zero_le _⟩
      omega

theorem matchesSum_le (a b : List Char) (pop junk : Char → Bool)
    (alo ahi blo bhi : Nat) :
    matchesSum a b pop junk alo ahi blo bhi ≤ ahi - alo ∧
    matchesSum a b pop junk alo ahi blo bhi ≤ bhi - blo :=
  matchesSumAux_le a b pop junk _ alo ahi blo bhi

/-- `get_matching_blocks` on two copies of the same sequence yields the
single block covering everything. -/
theorem matchesSum_self (a : List Char) (pop : Char → Bool) (n : Nat) :
    matchesSum a a pop noJunk 0 n 0 n = n := by
  unfold matchesSum
  match hn : n with
  | 0 => rfl
  | m + 1 =>
    rw [show (m + 1 - 0) + (m + 1 - 0) = (m + m + 1) + 1 by omega]
    simp only [matchesSumAux]
    rw [findLongestMatch_self]
    rw [if_neg (by simp)]
    rw [if_neg (by simp)]
    rw [if_neg (by simp)]

/-! ## Equality with the spec's recursive alignment when autojunk is off -/

theorem specAlignSumAux_degenerate (a b : List Char) :
    ∀ fuel alo ahi blo bhi, (ahi ≤ alo ∨ bhi ≤ blo) →
      specAlignSumAux a b fuel alo ahi blo bhi = 0 := by
  intro fuel alo ahi blo bhi h
  match fuel with
  | 0 => rfl
  | f + 1 =>
    simp only [specAlignSumAux]
    rw [dpBest_degenerate a b noJunk alo ahi blo bhi h]
    rfl

theorem matchesSumAux_eq_specAux (a b : List Char) :
    ∀ fuel alo ahi blo bhi,
      matchesSumAux a b noJunk noJunk fuel alo ahi blo bhi =
        specAlignSumAux a b fuel alo ahi blo bhi := by
  intro fuel
  induction fuel with
  | zero => intro alo ahi blo bhi; rfl
  | succ f ih =>
    intro alo ahi blo bhi
    simp only [matchesSumAux, specAlignSumAux, findLongestMatch_noPop]
    by_cases hz : (dpBest a b noJunk alo ahi blo bhi).2.2 = 0
    · rw [if_pos hz, if_pos hz]
    · rw [if_neg hz, if_neg hz]
      have hflm : (findLongestMatch a b noJunk noJunk alo ahi blo bhi).2.2 ≠ 0 := by
        rw [findLongestMatch_noPop]
        exact hz
      obtain ⟨hb1, hb2, hb3, hb4⟩ :=
        (findLongestMatch_pres a b noJunk noJunk alo ahi blo bhi).2 hflm
      rw [findLongestMatch_noPop] at hb1 hb2 hb3 hb4
      congr 1
      · congr 1
        by_cases hg : alo < (dpBest a b noJunk alo ahi blo bhi).1 ∧
            blo < (dpBest a b noJunk alo ahi blo bhi).2.1
        · rw [if_pos hg]
          exact ih alo _ blo _
        · rw [if_neg hg]
          have : (dpBest a b noJunk alo ahi blo bhi).1 ≤ alo ∨
              (dpBest a b noJunk alo ahi blo bhi).2.1 ≤ blo := by omega
          rw [specAlignSumAux_degenerate a b f alo _ blo _ this]
      · by_cases hg : (dpBest a b noJunk alo ahi blo bhi).1 +
            (dpBest a b noJunk alo ahi blo bhi).2.2 < ahi ∧
            (dpBest a b noJunk alo ahi blo bhi).2.1 +
              (dpBest a b noJunk alo ahi blo bhi).2.2 < bhi
        · rw [if_pos hg]
          exact ih _ ahi _ bhi
        · rw [if_neg hg]
          have : ahi ≤ (dpBest a b noJunk alo ahi blo bhi).1 +
              (dpBest a b noJunk alo ahi blo bhi).2.2 ∨
              bhi ≤ (dpBest a b noJunk alo ahi blo bhi).2.1 +
                (dpBest a b noJunk alo ahi blo bhi).2.2 := by omega
          rw [specAlignSumAux_degenerate a b f _ ahi _ bhi this]

theorem matchesSum_eq_specAlignSum (a b : List Char) (alo ahi blo bhi : Nat) :
    matchesSum a b noJunk noJunk alo ahi blo bhi =
      specAlignSum a b alo ahi blo bhi :=
  matchesSumAux_eq_specAux a b _ alo ahi blo bhi

/-- When `len(b) < 200` the autojunk purge is empty. -/
theorem popularChar_small (b : List Char) (h : b.length < 200) :
    popularChar b = noJunk := by
  funext c
  unfold popularChar noJunk
  have : decide (200 ≤ b.length) = false := by
    simp
    omega
  rw [this]
  rfl

/-! ## Concrete evaluations on the autojunk counterexample pair
`a = "ba"`, `b = "a" * 200` (deep kernel evaluation is avoided by computing
the scan's result through the lemmas above) -/

theorem charAt_replicate (c : Char) :
    ∀ n q, q < n → charAt (List.replicate n c) q = c := by
  intro n
  induction n with
  | zero => intro q h; omega
  | succ m ih =>
    intro q h
    match q with
    | 0 => rfl
    | q' + 1 => exact ih q' (by omega)

theorem popularChar_repl : popularChar (List.replicate 200 'a') 'a' = true := by
  unfold popularChar
  rw [List.length_replicate, List.count_replicate_self]
  decide

theorem matchLen_ba_row0 (pop : Char → Bool) :
    ∀ q, q < 200 →
      matchLen ['b', 'a'] (List.replicate 200 'a') pop 2 200 0 q = 0 := by
  intro q hq
  rw [matchLen_eq, if_neg]
  rintro ⟨-, -, h3, -⟩
  rw [charAt_replicate 'a' 200 q hq] at h3
  exact absurd h3 (by decide)

theorem matchLen_ba_row1_pop :
    ∀ q, q < 200 →
      matchLen ['b', 'a'] (List.replicate 200 'a')
        (popularChar (List.replicate 200 'a')) 2 200 1 q = 0 := by
  intro q hq
  rw [matchLen_eq, if_neg]
  rintro ⟨-, -, -, h4⟩
  rw [charAt_replicate 'a' 200 q hq, popularChar_repl] at h4
  exact absurd h4 (by decide)

theorem matchLen_ba_row1_noJunk :
    ∀ q, q < 200 →
      matchLen ['b', 'a'] (List.replicate 200 'a') noJunk 2 200 1 q = 1 := by
  intro q hq
  rw [matchLen_eq, if_pos]
  · rw [matchLen_eq, if_neg]
    rintro ⟨h1, -⟩
    omega
  · exact ⟨by omega, hq, by rw [charAt_replicate 'a' 200 q hq]; rfl, rfl⟩

theorem dpBest_ba_pop :
    dpBest ['b', 'a'] (List.replicate 200 'a')
      (popularChar (List.replicate 200 'a')) 0 2 0 200 = (0, 0, 0) := by
  apply dpBest_zero
  by_contra hne
  obtain ⟨p, t, hp1, hp2, ht1, ht2, heq, -, -⟩ :=
    dpBest_ach _ _ _ 0 2 0 200 hne
  have hk : matchLen ['b', 'a'] (List.replicate 200 'a')
      (popularChar (List.replicate 200 'a')) 2 200 p t ≠ 0 := by
    rw [heq] at hne
    exact hne
  have hp : p = 0 ∨ p = 1 := by omega
  rcases hp with hp | hp <;> subst hp
  · exact hk (matchLen_ba_row0 _ t ht2)
  · exact hk (matchLen_ba_row1_pop t ht2)

theorem dpBest_ba_noJunk :
    dpBest ['b', 'a'] (List.replicate 200 'a') noJunk 0 2 0 200 = (1, 0, 1) := by
  have hub := dpBest_ub ['b', 'a'] (List.replicate 200 'a') noJunk 0 2 0 200
    1 0 (by omega) (by omega) (by omega) (by omega)
  rw [matchLen_ba_row1_noJunk 0 (by omega)] at hub
  have hne : (dpBest ['b', 'a'] (List.replicate 200 'a') noJunk 0 2 0 200).2.2 ≠ 0 := by
    omega
  obtain ⟨p, t, hp1, hp2, ht1, ht2, heq, hminr, hminc⟩ :=
    dpBest_ach _ _ _ 0 2 0 200 hne
  have hk : matchLen ['b', 'a'] (List.replicate 200 'a') noJunk 2 200 p t ≠ 0 := by
    rw [heq] at hne
    exact hne
  have hp : p = 1 := by
    have hp01 : p = 0 ∨ p = 1 := by omega
    rcases hp01 with hp | hp
    · subst hp
      exact absurd (matchLen_ba_row0 _ t ht2) hk
    · exact hp
  subst hp
  have ht : t = 0 := by
    by_contra htne
    have := hminc 0 (by omega) (by omega)
    rw [matchLen_ba_row1_noJunk 0 (by omega),
      matchLen_ba_row1_noJunk t ht2] at this
    omega
  subst ht
  rw [heq, matchLen_ba_row1_noJunk 0 (by omega)]

theorem findLongestMatch_ba_pop :
    findLongestMatch ['b', 'a'] (List.replicate 200 'a')
      (popularChar (List.replicate 200 'a')) noJunk 0 2 0 200 = (0, 0, 0) := by
  rw [findLongestMatch_unfold, dpBest_ba_pop]
  have hb : extendBack ['b', 'a'] (List.replicate 200 'a') (fun c => !noJunk c)
      0 0 (0, 0, 0) = (0, 0, 0) := by
    apply extendBack_cond_false
    rintro ⟨h1, -⟩
    exact absurd h1 (Nat.lt_irrefl 0)
  have hf : extendFwd ['b', 'a'] (List.replicate 200 'a') (fun c => !noJunk c)
      2 200 (0, 0, 0) = (0, 0, 0) := by
    apply extendFwd_cond_false
    rintro ⟨-, -, -, h4⟩
    have h4' : charAt ['b', 'a'] 0 = charAt (List.replicate 200 'a') 0 := h4
    rw [charAt_replicate 'a' 200 0 (by omega)] at h4'
    exact absurd h4' (by decide)
  rw [hb, hf]
  have hjb : extendBack ['b', 'a'] (List.replicate 200 'a') noJunk 0 0 (0, 0, 0) =
      (0, 0, 0) := by
    unfold extendBack
    exact extendBackAux_noJunk _ _ 0 0 _ _
  rw [hjb]
  unfold extendFwd
  exact extendFwdAux_noJunk _ _ 2 200 _ _

theorem similarity_ba_repl :
    similarity ['b', 'a'] (List.replicate 200 'a') = 0 := by
  unfold similarity
  rw [if_neg (by simp)]
  have hlen : (List.replicate 200 'a').length = 200 := by simp
  rw [show (['b', 'a'] : List Char).length = 2 from rfl, hlen]
  have hms : matchesSum ['b', 'a'] (List.replicate 200 'a')
      (popularChar (List.replicate 200 'a')) noJunk 0 2 0 200 = 0 := by
    unfold matchesSum
    apply matchesSumAux_zero
    rw [findLongestMatch_ba_pop]
  rw [hms]
  norm_num

theorem specAlignSumAux_succ (a b : List Char) (f alo ahi blo bhi : Nat) :
    specAlignSumAux a b (f + 1) alo ahi blo bhi =
      if (dpBest a b noJunk alo ahi blo bhi).2.2 = 0 then 0
      else (dpBest a b noJunk alo ahi blo bhi).2.2 +
        specAlignSumAux a b f alo (dpBest a b noJunk alo ahi blo bhi).1 blo
          (dpBest a b noJunk alo ahi blo bhi).2.1 +
        specAlignSumAux a b f
          ((dpBest a b noJunk alo ahi blo bhi).1 +
            (dpBest a b noJunk alo ahi blo bhi).2.2) ahi
          ((dpBest a b noJunk alo ahi blo bhi).2.1 +
            (dpBest a b noJunk alo ahi blo bhi).2.2) bhi := by
  simp only [specAlignSumAux]

theorem specAlignSum_ba_repl :
    specAlignSum ['b', 'a'] (List.replicate 200 'a') 0 2 0 200 = 1 := by
  unfold specAlignSum
  rw [show (2 - 0) + (200 - 0) = 201 + 1 by norm_num]
  rw [specAlignSumAux_succ, dpBest_ba_noJunk]
  dsimp only
  rw [if_neg one_ne_zero]
  rw [specAlignSumAux_degenerate _ _ 201 0 1 0 0 (Or.inr (Nat.le_refl 0))]
  rw [specAlignSumAux_degenerate _ _ 201 (1 + 1) 2 (0 + 1) 200 (Or.inl (by omega))]

/-! ## Lemmas about the range validator -/

theorem get_ranges_safe_eq (es : List RangeTriple)
    (hsafe : ∀ e ∈ es, tripleSafe e = true) :
    get_ranges es = .ok (es.filterMap validRange) (es.filterMap tripleErr) := by
  induction es with
  | nil => rfl
  | cons e rest ih =>
    have he : tripleSafe e = true := hsafe e (List.mem_cons_self e rest)
    have hrest := ih fun x hx => hsafe x (List.mem_cons_of_mem e hx)
    simp only [tripleSafe, Bool.and_eq_true, Bool.or_eq_true,
      Bool.not_eq_true'] at he
    obtain ⟨hm1, hm2⟩ := he
    simp only [get_ranges, hrest, List.filterMap_cons]
    unfold validRange tripleErr
    by_cases h1 : isdigitStr e.minVal = false
    · rw [if_pos h1, if_pos h1, if_pos h1]
      rfl
    · rw [if_neg h1, if_neg h1, if_neg h1]
      by_cases h2 : e.maxVal ≠ infLit ∧ isdigitStr e.maxVal = false
      · rw [if_pos h2, if_pos h2, if_pos h2]
        rfl
      · rw [if_neg h2, if_neg h2, if_neg h2]
        by_cases h3 : e.dirName = []
        · rw [if_pos h3, if_pos h3, if_pos h3]
          rfl
        · rw [if_neg h3, if_neg h3, if_neg h3]
          have hp1 : intParses e.minVal = true := hm1.resolve_left h1
          rw [if_neg (by simp [hp1])]
          have hp2 : ¬(e.maxVal ≠ infLit ∧ intParses e.maxVal = false) := by
            rintro ⟨hne, hfa⟩
            rcases hm2 with hmd | hmp
            · exact h2 ⟨hne, hmd⟩
            · rw [hmp] at hfa
              exact Bool.noConfusion hfa
          rw [if_neg hp2]
          by_cases h4 : geUpper (natOfDigits e.minVal : ℚ)
              (if e.maxVal = infLit then .inf
                else .fin (natOfDigits e.maxVal : ℚ)) = true
          · rw [if_pos h4, if_pos h4, if_pos h4]
            rfl
          · rw [if_neg h4, if_neg h4, if_neg h4]
            rfl

theorem validRange_isSome_iff (e : RangeTriple) :
    (validRange e).isSome = true ↔ tripleErr e = none := by
  unfold validRange tripleErr
  by_cases h1 : isdigitStr e.minVal = false
  · rw [if_pos h1, if_pos h1]
    simp
  · rw [if_neg h1, if_neg h1]
    by_cases h2 : e.maxVal ≠ infLit ∧ isdigitStr e.maxVal = false
    · rw [if_pos h2, if_pos h2]
      simp
    · rw [if_neg h2, if_neg h2]
      by_cases h3 : e.dirName = []
      · rw [if_pos h3, if_pos h3]
        simp
      · rw [if_neg h3, if_neg h3]
        by_cases h4 : geUpper (natOfDigits e.minVal : ℚ)
            (if e.maxVal = infLit then .inf
              else .fin (natOfDigits e.maxVal : ℚ)) = true
        · rw [if_pos h4, if_pos h4]
          simp
        · rw [if_neg h4, if_neg h4]
          simp

theorem filterMap_length_partition (es : List RangeTriple) :
    (es.filterMap validRange).length + (es.filterMap tripleErr).length =
      es.length := by
  induction es with
  | nil => rfl
  | cons e rest ih =>
    simp only [List.filterMap_cons]
    by_cases h : (validRange e).isSome = true
    · obtain ⟨r, hr⟩ := Option.isSome_iff_exists.mp h
      have he : tripleErr e = none := (validRange_isSome_iff e).mp h
      rw [hr, he]
      simp only [List.length_cons]
      omega
    · have hv : validRange e = none := by
        cases hvr : validRange e
        · rfl
        · rw [hvr] at h
          simp at h
      have he : tripleErr e ≠ none := fun hc =>
        h ((validRange_isSome_iff e).mpr hc)
      obtain ⟨x, hx⟩ := Option.ne_none_iff_exists.mp he
      rw [hv, ← hx]
      simp only [List.length_cons]
      omega

/-! ## Lemmas about the report engine -/

theorem find_best_match_size_isSome (folderName : List Char)
    (projects : List Project) :
    ∀ best maxSim bm sim,
      fbmAux folderName best maxSim projects = (some bm, sim) →
      (∀ b0, best = some b0 → b0.psize.isSome = true) →
      bm.psize.isSome = true := by
  induction projects with
  | nil =>
    intro best maxSim bm sim h hbest
    simp only [fbmAux, Prod.mk.injEq] at h
    exact hbest bm h.1
  | cons p rest ih =>
    intro best maxSim bm sim h hbest
    simp only [fbmAux] at h
    cases hp : p.psize with
    | none =>
      rw [hp] at h
      exact ih best maxSim bm sim h hbest
    | some s =>
      rw [hp] at h
      by_cases hcmp : maxSim < similarity folderName p.pname
      · rw [if_pos hcmp] at h
        refine ih (some p) _ bm sim h ?_
        intro b0 hb0
        have : p = b0 := by
          injection hb0
        rw [← this, hp]
        rfl
      · rw [if_neg hcmp] at h
        exact ih best maxSim bm sim h hbest

theorem reportSubRows_names (ranges : List SizeRange) (projects : List Project)
    (entryName : List Char) :
    ∀ subs : List SubEntry,
      (reportSubRows ranges projects entryName subs).map (·.folderName) =
        ((subs.filter fun s => s.sIsDir).map fun s => s.sname).filter
          (fun f => ((find_best_match f projects).1).isSome) := by
  intro subs
  induction subs with
  | nil => rfl
  | cons sub rest ih =>
    by_cases hd : sub.sIsDir = true
    · have hfilter : List.filter (fun s => s.sIsDir) (sub :: rest) =
          sub :: List.filter (fun s => s.sIsDir) rest :=
        List.filter_cons_of_pos hd
      rcases hfbm : find_best_match sub.sname projects with ⟨obm, sim⟩
      cases obm with
      | some bm =>
        have hpred : ((find_best_match sub.sname projects).1).isSome = true := by
          rw [hfbm]
          rfl
        simp only [reportSubRows, if_pos hd, hfbm, hfilter, List.map_cons,
          List.map_append, ih, List.filter_cons, hpred, if_true, mkReportRow]
        simp
      | none =>
        have hpred : ((find_best_match sub.sname projects).1).isSome = false := by
          rw [hfbm]
          rfl
        simp only [reportSubRows, if_pos hd, hfbm, hfilter, List.map_cons,
          List.map_append, ih, List.filter_cons, hpred]
        simp
    · have hfilter : List.filter (fun s => s.sIsDir) (sub :: rest) =
          List.filter (fun s => s.sIsDir) rest :=
        List.filter_cons_of_neg (by simpa using hd)
      simp only [reportSubRows, if_neg hd, hfilter, List.nil_append, ih]

/-! ## Lemmas about the classify engine's move step -/

theorem makedirs_has_target (fs : List FsEntry) (t : List Char) :
    ∃ e ∈ makedirs fs t, e.name = t := by
  unfold makedirs
  by_cases h : fs.any (fun e => e.name = t) = true
  · rw [if_pos h]
    obtain ⟨e, he, hname⟩ := List.any_eq_true.mp h
    exact ⟨e, he, by simpa using hname⟩
  · rw [if_neg h]
    exact ⟨⟨t, true, []⟩, List.mem_append_right _ (List.mem_singleton.mpr rfl), rfl⟩

theorem removeTop_keeps (fs : List FsEntry) (f t : List Char) (hne : f ≠ t)
    (h : ∃ e ∈ fs, e.name = t) : ∃ e ∈ removeTop fs f, e.name = t := by
  obtain ⟨e, he, hname⟩ := h
  refine ⟨e, ?_, hname⟩
  unfold removeTop
  rw [List.mem_filter]
  refine ⟨he, ?_⟩
  simp only [decide_eq_true_eq]
  rw [hname]
  exact fun hc => hne hc.symm

theorem contentsOf_addContent (f t : List Char) :
    ∀ fs : List FsEntry, (∃ e ∈ fs, e.name = t) →
      f ∈ contentsOf (addContent fs t f) t := by
  intro fs
  induction fs with
  | nil =>
    rintro ⟨e, he, -⟩
    simp at he
  | cons e rest ih =>
    rintro ⟨w, hw, hwname⟩
    unfold addContent contentsOf
    simp only [List.map_cons]
    by_cases he : e.name = t
    · rw [if_pos he]
      rw [List.find?_cons_of_pos _ (by simpa using he)]
      simp
    · rw [if_neg he]
      rw [List.find?_cons_of_neg _ (by simpa using he)]
      have hwrest : w ∈ rest := by
        rcases List.mem_cons.mp hw with hww | hww
        · exact absurd (hww ▸ hwname) he
        · exact hww
      have := ih ⟨w, hwrest, hwname⟩
      unfold contentsOf addContent at this
      exact this

/-! ## Claims -/

/-- C1 (counterexample): the similarity function used by both engines does
not return `2*M / (len(a) + len(b))` with `M` the recursive
longest-common-contiguous-substring alignment sum for every pair of strings:
at `a = "ba"`, `b = "a" * 200` the autojunk heuristic deletes `'a'` from the
match index, so `ratio` returns `0` while the spec's alignment gives
`2*1/202`. -/
theorem C1_similarity_formula_cex :
    similarity ['b', 'a'] (List.replicate 200 'a') ≠
      2 * (specAlignSum ['b', 'a'] (List.replicate 200 'a') 0
          (['b', 'a'] : List Char).length 0 (List.replicate 200 'a').length : ℚ) /
        (((['b', 'a'] : List Char).length : ℚ) +
          ((List.replicate 200 'a').length : ℚ)) := by
  rw [similarity_ba_repl]
  rw [show (['b', 'a'] : List Char).length = 2 from rfl,
    List.length_replicate, specAlignSum_ba_repl]
  norm_num

/-- C1 (amended): for every pair of strings with `len(b) < 200` (so that
difflib's autojunk heuristic is inactive) and at least one character in
total, the similarity function used by both engines returns exactly
`2*M / (len(a) + len(b))`, where `M` is the total length of matched
substrings produced by the recursive longest-common-contiguous-substring
alignment. -/
theorem C1_similarity_is_spec_ratio (a b : List Char) (hb : b.length < 200)
    (hlen : 0 < a.length + b.length) :
    similarity a b =
      2 * (specAlignSum a b 0 a.length 0 b.length : ℚ) /
        ((a.length : ℚ) + (b.length : ℚ)) := by
  unfold similarity
  rw [if_neg (by omega), popularChar_small b hb, matchesSum_eq_specAlignSum]

/-- C1 (witness): the amended claim instantiated at `a = "ab"`,
`b = "bacb"`. -/
theorem C1_similarity_is_spec_ratio_witness :
    similarity ['a', 'b'] ['b', 'a', 'c', 'b'] =
      2 * (specAlignSum ['a', 'b'] ['b', 'a', 'c', 'b'] 0
          (['a', 'b'] : List Char).length 0
          (['b', 'a', 'c', 'b'] : List Char).length : ℚ) /
        (((['a', 'b'] : List Char).length : ℚ) +
          ((['b', 'a', 'c', 'b'] : List Char).length : ℚ)) :=
  C1_similarity_is_spec_ratio ['a', 'b'] ['b', 'a', 'c', 'b']
    (by decide) (by decide)

/-- C4: for every string `a`, `similarity(a, a) = 1.0`, including the empty
string.  (This holds even when autojunk purges characters of `a`: the scan's
best block on two copies of the same string is diagonal, and the non-junk
extension loops then stretch it to the whole string.) -/
theorem C4_similarity_self (a : List Char) : similarity a a = 1 := by
  unfold similarity
  by_cases h : a.length + a.length = 0
  · rw [if_pos h]
  · rw [if_neg h]
    rw [matchesSum_self]
    have hn : (a.length : ℚ) ≠ 0 := by
      have : a.length ≠ 0 := by omega
      exact_mod_cast this
    field_simp
    ring

/-- C8 (counterexample): similarity is not symmetric:
`ratio("ab", "bacb") = 2/3` but `ratio("bacb", "ab") = 1/3` (the scan's
tie-breaking prefers blocks earliest in `a`, and the recursion windows that
remain differ between the two orders). -/
theorem C8_similarity_symm_cex :
    similarity ['a', 'b'] ['b', 'a', 'c', 'b'] ≠
      similarity ['b', 'a', 'c', 'b'] ['a', 'b'] := by
  with_unfolding_all decide

/-- C8 (amended): for all strings `a` and `b` the similarity lies in
`[0, 1]`; the symmetry half of the original claim is false, see the
counterexample. -/
theorem C8_similarity_bounds (a b : List Char) :
    0 ≤ similarity a b ∧ similarity a b ≤ 1 := by
  unfold similarity
  by_cases h : a.length + b.length = 0
  · rw [if_pos h]
    norm_num
  · rw [if_neg h]
    have hM := matchesSum_le a b (popularChar b) noJunk 0 a.length 0 b.length
    have hden : (0 : ℚ) < (a.length : ℚ) + (b.length : ℚ) := by
      have h' : 0 < a.length + b.length := by omega
      exact_mod_cast h'
    constructor
    · apply div_nonneg
      · positivity
      · linarith
    · rw [div_le_one hden]
      have h2 : 2 * matchesSum a b (popularChar b) noJunk 0 a.length 0 b.length ≤
          a.length + b.length := by omega
      exact_mod_cast h2

/-- C5 (counterexample): `RangeConfigurator.get_ranges` CAN fail fast.  On
the triples `("x", "5", "A"), ("²", "5", "B")` the first triple's violation
is recorded, but the second passes all three checks — `'²'` (U+00B2) has
the Unicode digit property, so `"²".isdigit()` holds — and then
`int("²")` raises an uncaught `ValueError`: the call aborts mid-loop,
returns no `(ranges, errors)` pair, and the already-collected error is
lost, contradicting "every triple is checked independently and all
violations are collected". -/
theorem C5_fail_fast_cex :
    get_ranges [⟨['x'], ['5'], ['A']⟩, ⟨['²'], ['5'], ['B']⟩] =
      .raised ['²'] := by
  with_unfolding_all decide

/-- C5 (amended): restricted to inputs on which the `int(...)` conversions
cannot raise — every numeric text that passes `isdigit` consists of decimal
digits only — `get_ranges` does not fail fast: every triple is checked
independently, the triples that pass all checks produce ranges in their
original relative order, the triples that fail produce errors in order, and
the call returns the pair `(ranges, errors)`. -/
theorem C5_get_ranges_no_fail_fast (es : List RangeTriple)
    (hsafe : ∀ e ∈ es, tripleSafe e = true) :
    get_ranges es = .ok (es.filterMap validRange) (es.filterMap tripleErr) :=
  get_ranges_safe_eq es hsafe

theorem C5_get_ranges_no_fail_fast_witness :
    (∀ e ∈ [RangeTriple.mk ['0'] ['5'] ['A'],
      RangeTriple.mk ['5'] ['x'] ['B']], tripleSafe e = true) ∧
    get_ranges [RangeTriple.mk ['0'] ['5'] ['A'],
        RangeTriple.mk ['5'] ['x'] ['B']] =
      .ok ([RangeTriple.mk ['0'] ['5'] ['A'],
          RangeTriple.mk ['5'] ['x'] ['B']].filterMap validRange)
        ([RangeTriple.mk ['0'] ['5'] ['A'],
          RangeTriple.mk ['5'] ['x'] ['B']].filterMap tripleErr) :=
  ⟨by decide, C5_get_ranges_no_fail_fast _ (by decide)⟩

/-- C9 (counterexample): a triple can yield NO outcome at all.  On the
single triple `("³", "5", "A")`, `"³".isdigit()` holds (U+00B3 has the
Unicode digit property) yet `int("³")` raises, so the call raises instead
of returning: zero ranges and zero errors for one input triple. -/
theorem C9_one_outcome_cex :
    get_ranges [⟨['³'], ['5'], ['A']⟩] = .raised ['³'] := by
  with_unfolding_all decide

/-- C9 (amended): restricted to inputs on which `int(...)` cannot raise,
`get_ranges` produces exactly one outcome per input triple — either one
parsed range or exactly one error (that of the first violated check, which
is how `tripleErr` is defined, the exclusivity being the second conjunct) —
so the number of ranges plus the number of errors equals the number of
triples. -/
theorem C9_one_outcome_per_triple (es : List RangeTriple)
    (hsafe : ∀ e ∈ es, tripleSafe e = true) :
    (∃ rs errs, get_ranges es = .ok rs errs ∧
      rs.length + errs.length = es.length) ∧
    ∀ e : RangeTriple, ((validRange e).isSome = true ↔ tripleErr e = none) :=
  ⟨⟨es.filterMap validRange, es.filterMap tripleErr,
    get_ranges_safe_eq es hsafe, filterMap_length_partition es⟩,
   validRange_isSome_iff⟩

theorem C9_one_outcome_per_triple_witness :
    (∀ e ∈ [RangeTriple.mk ['7'] infLit ['C'],
      RangeTriple.mk [] ['5'] ['D']], tripleSafe e = true) ∧
    ((∃ rs errs,
      get_ranges [RangeTriple.mk ['7'] infLit ['C'],
          RangeTriple.mk [] ['5'] ['D']] = .ok rs errs ∧
      rs.length + errs.length =
        [RangeTriple.mk ['7'] infLit ['C'],
          RangeTriple.mk [] ['5'] ['D']].length) ∧
    ∀ e : RangeTriple, ((validRange e).isSome = true ↔ tripleErr e = none)) :=
  ⟨by decide, C9_one_outcome_per_triple _ (by decide)⟩

/-- C2 (counterexample): `generate` does not append a row for every
folder-to-report: `_find_best_match` keeps a record only when its similarity
strictly exceeds the initial maximum `0.0`, so a folder sharing no character
with any record (here folder `"xyz"` with the single sized record `"abc"`)
yields `best_match = None` and no row, although it is a folder-to-report. -/
theorem C2_row_per_folder_cex :
    reportRows [] [⟨['a', 'b', 'c'], some 100⟩] ['b', 'a', 's', 'e']
        [⟨['x', 'y', 'z'], true, []⟩] = [] ∧
      (foldersToReport [] [⟨['x', 'y', 'z'], true, []⟩]).length = 1 := by
  with_unfolding_all decide

/-- C2 (amended): `generate` appends exactly one row, in traversal order,
for each folder-to-report (top-level non-bucket directory of the base
directory, or subdirectory one level inside a bucket directory) whose
best-match search returns a record, i.e. for which some record with a
defined size has similarity strictly greater than `0.0`; all other
folders-to-report get no row. -/
theorem C2_report_rows_characterization (ranges : List SizeRange)
    (projects : List Project) (baseName : List Char)
    (entries : List TopEntry) :
    (reportRows ranges projects baseName entries).map (·.folderName) =
      (foldersToReport ranges entries).filter
        (fun f => ((find_best_match f projects).1).isSome) := by
  induction entries with
  | nil => rfl
  | cons e rest ih =>
    by_cases hd : e.tIsDir = false
    · simp only [reportRows, foldersToReport, if_pos hd, List.nil_append, ih]
    · by_cases hb : e.tname ∈ ranges.map (·.label)
      · simp only [reportRows, foldersToReport, if_neg hd, if_pos hb,
          List.map_append, List.filter_append, ih, reportSubRows_names]
      · rcases hfbm : find_best_match e.tname projects with ⟨obm, sim⟩
        cases obm with
        | some bm =>
          have hpred : ((find_best_match e.tname projects).1).isSome = true := by
            rw [hfbm]
            rfl
          simp only [reportRows, foldersToReport, if_neg hd, if_neg hb, hfbm,
            List.map_append, List.filter_append, ih, List.map_cons,
            List.map_nil, List.filter_cons, List.filter_nil, hpred, if_true,
            mkReportRow]
          simp
        | none =>
          have hpred : ((find_best_match e.tname projects).1).isSome = false := by
            rw [hfbm]
            rfl
          simp only [reportRows, foldersToReport, if_neg hd, if_neg hb, hfbm,
            List.map_append, List.filter_append, ih, List.map_cons,
            List.map_nil, List.filter_cons, List.filter_nil, hpred]
          simp

/-- C3: for each record, the matched folder is the first immediate
subdirectory of the base directory, in enumeration order, whose similarity
with the record's name strictly exceeds `0.8` (`List.find?` semantics, never
a later higher-scoring folder); and when no subdirectory exceeds the
threshold the record is skipped with no effect — no directory is created
and nothing is moved. -/
theorem C3_classify_first_over_threshold (fs : List FsEntry) (name : List Char) :
    find_project_folder fs name =
      (fs.find? fun e =>
          e.isDir && decide ((4 : ℚ) / 5 < similarity name e.name)).map
        (fun e => e.name) ∧
    ∀ ranges s,
      (fs.find? fun e =>
          e.isDir && decide ((4 : ℚ) / 5 < similarity name e.name)) = none →
      classifyStep ranges fs ⟨name, some s⟩ = (fs, none) := by
  have hmain : find_project_folder fs name =
      (fs.find? fun e =>
          e.isDir && decide ((4 : ℚ) / 5 < similarity name e.name)).map
        (fun e => e.name) := by
    induction fs with
    | nil => rfl
    | cons e rest ih =>
      by_cases h : e.isDir = true ∧ (4 : ℚ) / 5 < similarity name e.name
      · unfold find_project_folder
        rw [if_pos h]
        rw [List.find?_cons_of_pos _ (by simp [h.1, h.2])]
        rfl
      · unfold find_project_folder
        rw [if_neg h]
        rw [List.find?_cons_of_neg _ (by
          simp only [Bool.and_eq_true, decide_eq_true_eq]
          exact h)]
        exact ih
  refine ⟨hmain, ?_⟩
  intro ranges s h
  have h1 : find_project_folder fs name = none := by
    rw [hmain, h]
    rfl
  simp only [classifyStep, h1]

/-- C3 (witness): the none-case of the claim at a concrete store with one
directory `"x"` and record name `"qqq"` (similarity `0`). -/
theorem C3_classify_first_over_threshold_witness :
    find_project_folder [⟨['x'], true, []⟩] ['q', 'q', 'q'] =
      (([⟨['x'], true, []⟩] : List FsEntry).find? fun e =>
          e.isDir && decide ((4 : ℚ) / 5 <
            similarity ['q', 'q', 'q'] e.name)).map (fun e => e.name) ∧
    classifyStep [⟨0, .fin 500, ['S']⟩] [⟨['x'], true, []⟩]
      ⟨['q', 'q', 'q'], some 100⟩ = ([⟨['x'], true, []⟩], none) :=
  ⟨(C3_classify_first_over_threshold [⟨['x'], true, []⟩] ['q', 'q', 'q']).1,
    (C3_classify_first_over_threshold [⟨['x'], true, []⟩] ['q', 'q', 'q']).2
      [⟨0, .fin 500, ['S']⟩] 100 (by with_unfolding_all decide)⟩

/-- C6: a failed move is not caught per record: the run stops at the failing
record with the error, the records after it are never processed (the result
does not depend on them), and the moves of the records before it are kept in
the returned state (no rollback). -/
theorem C6_move_error_halts_run (ranges : List SizeRange) (fs : List FsEntry)
    (pre : List RecordRow) (r : RecordRow) (post : List RecordRow)
    (fs1 fs2 : List FsEntry) (e : MoveErr)
    (h1 : classifyRun ranges fs pre = (fs1, none))
    (h2 : classifyStep ranges fs1 r = (fs2, some e)) :
    classifyRun ranges fs (pre ++ r :: post) = (fs2, some e) := by
  induction pre generalizing fs with
  | nil =>
    simp only [classifyRun, Prod.mk.injEq] at h1
    rw [List.nil_append]
    simp only [classifyRun, h1.1 ▸ h2]
  | cons p pre' ih =>
    simp only [classifyRun] at h1 ⊢
    rcases hstep : classifyStep ranges fs p with ⟨fs', oe⟩
    rw [hstep] at h1
    cases oe with
    | none => exact ih fs' h1
    | some e' =>
      rw [Prod.mk.injEq] at h1
      exact absurd h1.2 (by simp)

/-- C6 (witness): a run where the single record's move fails because the
destination bucket already contains a folder of the same name; the returned
state keeps the partial work and carries the error. -/
theorem C6_move_error_halts_run_witness :
    classifyRun [⟨0, .fin 500, ['S', 'm', 'a', 'l', 'l']⟩]
      [⟨['P', 'r', 'o', 'j', 'A'], true, []⟩,
        ⟨['S', 'm', 'a', 'l', 'l'], true, [['P', 'r', 'o', 'j', 'A']]⟩]
      ([] ++ ⟨['P', 'r', 'o', 'j', 'A', '1'], some 100⟩ :: []) =
      ([⟨['P', 'r', 'o', 'j', 'A'], true, []⟩,
        ⟨['S', 'm', 'a', 'l', 'l'], true, [['P', 'r', 'o', 'j', 'A']]⟩],
        some (.destExists ['P', 'r', 'o', 'j', 'A'] ['S', 'm', 'a', 'l', 'l'])) :=
  C6_move_error_halts_run [⟨0, .fin 500, ['S', 'm', 'a', 'l', 'l']⟩]
    [⟨['P', 'r', 'o', 'j', 'A'], true, []⟩,
      ⟨['S', 'm', 'a', 'l', 'l'], true, [['P', 'r', 'o', 'j', 'A']]⟩]
    [] ⟨['P', 'r', 'o', 'j', 'A', '1'], some 100⟩ []
    [⟨['P', 'r', 'o', 'j', 'A'], true, []⟩,
      ⟨['S', 'm', 'a', 'l', 'l'], true, [['P', 'r', 'o', 'j', 'A']]⟩]
    [⟨['P', 'r', 'o', 'j', 'A'], true, []⟩,
      ⟨['S', 'm', 'a', 'l', 'l'], true, [['P', 'r', 'o', 'j', 'A']]⟩]
    (.destExists ['P', 'r', 'o', 'j', 'A'] ['S', 'm', 'a', 'l', 'l'])
    rfl (by with_unfolding_all decide)

/-- C7: both `_get_target_dir` variants return the label of the first range
in list order with `min <= size < max` (so on overlap the earlier range
wins); with no matching range the classify engine leaves the filesystem
untouched for that record while the report engine returns the sentinel
label `"未分类"`. -/
theorem C7_bucketizer_first_match (ranges : List SizeRange) (s : ℚ) :
    get_target_dir ranges s =
      (ranges.find? fun r => inRange r s).map (fun r => r.label) ∧
    get_target_dir_report ranges s =
      (((ranges.find? fun r => inRange r s).map (fun r => r.label)).getD
        unclassifiedLabel) ∧
    ∀ fs name, (ranges.find? fun r => inRange r s) = none →
      classifyStep ranges fs ⟨name, some s⟩ = (fs, none) := by
  have hrep : get_target_dir_report ranges s =
      (((ranges.find? fun r => inRange r s).map (fun r => r.label)).getD
        unclassifiedLabel) := by
    induction ranges with
    | nil => rfl
    | cons r rest ih =>
      cases hr : inRange r s with
      | true =>
        unfold get_target_dir_report
        rw [if_pos hr, List.find?_cons_of_pos _ (by simp [hr])]
        rfl
      | false =>
        unfold get_target_dir_report
        rw [if_neg (by simp [hr]), List.find?_cons_of_neg _ (by simp [hr])]
        exact ih
  have hmain : get_target_dir ranges s =
      (ranges.find? fun r => inRange r s).map (fun r => r.label) := by
    clear hrep
    induction ranges with
    | nil => rfl
    | cons r rest ih =>
      cases hr : inRange r s with
      | true =>
        unfold get_target_dir
        rw [if_pos hr, List.find?_cons_of_pos _ (by simp [hr])]
        rfl
      | false =>
        unfold get_target_dir
        rw [if_neg (by simp [hr]), List.find?_cons_of_neg _ (by simp [hr])]
        exact ih
  refine ⟨hmain, hrep, ?_⟩
  intro fs name h
  have h1 : get_target_dir ranges s = none := by
    rw [hmain, h]
    rfl
  rcases hf : find_project_folder fs name with - | folder
  · simp only [classifyStep, hf]
  · simp only [classifyStep, hf, h1]

/-- C7 (witness): range list `[(0, 5, "A")]` and size `7`: no range matches,
and a record whose name matches an existing folder exactly is still a
no-op. -/
theorem C7_bucketizer_first_match_witness :
    get_target_dir [⟨0, .fin 5, ['A']⟩] 7 =
      (([⟨0, .fin 5, ['A']⟩] : List SizeRange).find? fun r =>
        inRange r 7).map (fun r => r.label) ∧
    classifyStep [⟨0, .fin 5, ['A']⟩] [⟨['x'], true, []⟩] ⟨['x'], some 7⟩ =
      ([⟨['x'], true, []⟩], none) :=
  ⟨(C7_bucketizer_first_match [⟨0, .fin 5, ['A']⟩] 7).1,
    (C7_bucketizer_first_match [⟨0, .fin 5, ['A']⟩] 7).2.2 [⟨['x'], true, []⟩]
      ['x'] (by with_unfolding_all decide)⟩

/-- C10: the classify engine's folder search ranges over every immediate
subdirectory of the base directory without excluding the configured bucket
directories: when the first over-threshold folder `f` is itself a bucket
label and the record's size falls in a different bucket `t`, the step
relocates the bucket directory `f` into `t`. -/
theorem C10_bucket_dir_can_be_moved (ranges : List SizeRange)
    (fs : List FsEntry) (name f t : List Char) (s : ℚ)
    (hfind : find_project_folder fs name = some f)
    (hbucket : f ∈ ranges.map (fun r => r.label))
    (htarget : get_target_dir ranges s = some t)
    (hne : f ≠ t)
    (hfree : f ∉ contentsOf (makedirs fs t) t) :
    classifyStep ranges fs ⟨name, some s⟩ =
      (addContent (removeTop (makedirs fs t) f) t f, none) ∧
    f ∈ contentsOf (addContent (removeTop (makedirs fs t) f) t f) t := by
  constructor
  · simp only [classifyStep, hfind, htarget]
    unfold moveInto
    rw [if_neg hfree]
  · apply contentsOf_addContent
    exact removeTop_keeps _ f t hne (makedirs_has_target fs t)

/-- C10 (witness): record `"Small1"` (size `600`) matches the bucket
directory `"Small"` itself (similarity `10/11 > 0.8`), which is then moved
into the other bucket `"Big"`. -/
theorem C10_bucket_dir_can_be_moved_witness :
    classifyStep
      [⟨0, .fin 500, ['S', 'm', 'a', 'l', 'l']⟩, ⟨500, .inf, ['B', 'i', 'g']⟩]
      [⟨['S', 'm', 'a', 'l', 'l'], true, []⟩]
      ⟨['S', 'm', 'a', 'l', 'l', '1'], some 600⟩ =
      (addContent (removeTop (makedirs [⟨['S', 'm', 'a', 'l', 'l'], true, []⟩]
        ['B', 'i', 'g']) ['S', 'm', 'a', 'l', 'l']) ['B', 'i', 'g']
        ['S', 'm', 'a', 'l', 'l'], none) ∧
    ['S', 'm', 'a', 'l', 'l'] ∈ contentsOf
      (addContent (removeTop (makedirs [⟨['S', 'm', 'a', 'l', 'l'], true, []⟩]
        ['B', 'i', 'g']) ['S', 'm', 'a', 'l', 'l']) ['B', 'i', 'g']
        ['S', 'm', 'a', 'l', 'l']) ['B', 'i', 'g'] :=
  C10_bucket_dir_can_be_moved
    [⟨0, .fin 500, ['S', 'm', 'a', 'l', 'l']⟩, ⟨500, .inf, ['B', 'i', 'g']⟩]
    [⟨['S', 'm', 'a', 'l', 'l'], true, []⟩]
    ['S', 'm', 'a', 'l', 'l', '1'] ['S', 'm', 'a', 'l', 'l'] ['B', 'i', 'g'] 600
    (by with_unfolding_all decide) (by with_unfolding_all decide)
    (by with_unfolding_all decide) (by with_unfolding_all decide)
    (by with_unfolding_all decide)
